import Mathlib

/-!
Verification development for the tidebreak repository (crates tidebreak-core
and murk).  The Rust source is shallowly embedded: machine floats (f32/f64)
are idealised as exact rationals in the Sim Engine (crate tidebreak-core,
where only ring operations and comparisons occur) and as exact reals in the
Field Store (crate murk, where exp and sqrt occur); u64/u32/usize counters
are idealised as Nat.  Each definition mirrors the function of the same name
in the source.
-/

namespace Tidebreak

/-- Two-dimensional vector (glam::Vec2), components idealised as rationals. -/
structure Vec2 where
  x : ℚ
  y : ℚ
  deriving DecidableEq, Repr

namespace Vec2

/-- The zero vector (Vec2::ZERO). -/
def zero : Vec2 := ⟨0, 0⟩

/-- Componentwise addition. -/
def add (a b : Vec2) : Vec2 := ⟨a.x + b.x, a.y + b.y⟩

/-- Scalar multiplication (velocity * dt). -/
def scale (a : Vec2) (c : ℚ) : Vec2 := ⟨a.x * c, a.y * c⟩

/-- Squared euclidean distance (Vec2::distance_squared). -/
def distanceSquared (a b : Vec2) : ℚ :=
  (a.x - b.x) * (a.x - b.x) + (a.y - b.y) * (a.y - b.y)

end Vec2

/-- Ammunition types (entity/components.rs AmmoType). -/
inductive AmmoType where
  | bullet | missile | torpedo | shell | depthCharge | countermeasure
  deriving DecidableEq, Repr

/-- Emissions mode (entity/components.rs EmissionsMode). -/
inductive EmissionsMode where
  | silent | passive | active
  deriving DecidableEq, Repr

/-- Track quality ladder (entity/components.rs TrackQuality). -/
inductive TrackQuality where
  | cue | coarse | fireControl | shared
  deriving DecidableEq, Repr

/-- A sensor track (entity/components.rs Track).  Entity ids are Nat. -/
structure Track where
  targetId : ℕ
  position : Vec2
  velocity : Option Vec2
  quality : TrackQuality
  age : ℚ
  classificationConfidence : ℚ
  deriving DecidableEq, Repr

/-- Weapon state for one slot (entity/components.rs WeaponState). -/
structure WeaponState where
  slot : ℕ
  cooldown : ℚ
  maxCooldown : ℚ
  ammoType : AmmoType
  operational : Bool
  deriving DecidableEq, Repr

/-- WeaponState::is_ready: operational and cooldown <= 0. -/
def WeaponState.isReady (w : WeaponState) : Bool :=
  w.operational && decide (w.cooldown ≤ 0)

/-- Status flags bitmask (entity/components.rs StatusFlags, a u32 bitflags). -/
abbrev StatusFlags := ℕ

/-- StatusFlags::MOBILITY_DISABLED. -/
def StatusFlags.MOBILITY_DISABLED : StatusFlags := 1
/-- StatusFlags::WEAPONS_DISABLED. -/
def StatusFlags.WEAPONS_DISABLED : StatusFlags := 2
/-- StatusFlags::SENSORS_DISABLED. -/
def StatusFlags.SENSORS_DISABLED : StatusFlags := 4
/-- StatusFlags::DESTROYED. -/
def StatusFlags.DESTROYED : StatusFlags := 8
/-- StatusFlags::empty(). -/
def StatusFlags.emptyFlags : StatusFlags := 0

/-- bitflags insert: bits |= other. -/
def StatusFlags.insertFlag (s f : StatusFlags) : StatusFlags := Nat.lor s f

/-- bitflags remove: bits &= !other (within the u32 word). -/
def StatusFlags.removeFlag (s f : StatusFlags) : StatusFlags :=
  Nat.land s (Nat.xor (2 ^ 32 - 1) f)

/-- bitflags contains: bits & other == other. -/
def StatusFlags.containsFlag (s f : StatusFlags) : Bool :=
  decide (Nat.land s f = f)

/-- Combat state (entity/components.rs CombatState). -/
structure CombatState where
  hp : ℚ
  maxHp : ℚ
  weapons : List WeaponState
  statusFlags : StatusFlags
  deriving DecidableEq, Repr

/-- Sensor state (entity/components.rs SensorState). -/
structure SensorState where
  radarRange : ℚ
  sonarRange : ℚ
  emissionsMode : EmissionsMode
  trackTable : List Track
  deriving DecidableEq, Repr

/-- Transform state (entity/components.rs TransformState). -/
structure TransformState where
  position : Vec2
  heading : ℚ
  deriving DecidableEq, Repr

/-- Physics state (entity/components.rs PhysicsState). -/
structure PhysicsState where
  velocity : Vec2
  angularVelocity : ℚ
  maxSpeed : ℚ
  maxTurnRate : ℚ
  deriving DecidableEq, Repr

/-- Inventory state (entity/components.rs InventoryState); the ammo
BTreeMap is an association list. -/
structure InventoryState where
  fuel : ℚ
  maxFuel : ℚ
  ammo : List (AmmoType × ℕ)
  deriving DecidableEq, Repr

/-- ShipComponents. -/
structure ShipComponents where
  transform : TransformState
  physics : PhysicsState
  combat : CombatState
  sensor : SensorState
  inventory : InventoryState
  deriving DecidableEq, Repr

/-- PlatformComponents. -/
structure PlatformComponents where
  transform : TransformState
  sensor : SensorState
  deriving DecidableEq, Repr

/-- ProjectileComponents. -/
structure ProjectileComponents where
  transform : TransformState
  physics : PhysicsState
  deriving DecidableEq, Repr

/-- SquadronComponents. -/
structure SquadronComponents where
  transform : TransformState
  physics : PhysicsState
  combat : CombatState
  deriving DecidableEq, Repr

/-- Entity tags (entity/mod.rs EntityTag). -/
inductive EntityTag where
  | ship | platform | projectile | squadron
  deriving DecidableEq, Repr

/-- Tagged component storage (entity/mod.rs EntityInner). -/
inductive EntityInner where
  | ship (c : ShipComponents)
  | platform (c : PlatformComponents)
  | projectile (c : ProjectileComponents)
  | squadron (c : SquadronComponents)
  deriving DecidableEq, Repr

/-- An entity (entity/mod.rs Entity); EntityId is a Nat. -/
structure Entity where
  id : ℕ
  tag : EntityTag
  inner : EntityInner
  deriving DecidableEq, Repr

namespace Entity

/-- Entity::as_ship. -/
def asShip (e : Entity) : Option ShipComponents :=
  match e.inner with
  | .ship c => some c
  | _ => none

/-- Entity position as read by Arena::get_entity_position. -/
def position (e : Entity) : Vec2 :=
  match e.inner with
  | .ship c => c.transform.position
  | .platform c => c.transform.position
  | .projectile c => c.transform.position
  | .squadron c => c.transform.position

end Entity

/-- Spatial index (arena.rs SpatialIndex): entity positions keyed by id.
The backing HashMap is an association list whose order is arbitrary. -/
structure SpatialIndex where
  positions : List (ℕ × Vec2)
  deriving DecidableEq, Repr

namespace SpatialIndex

/-- HashMap::insert - replace an existing key or add a new entry. -/
def insert (s : SpatialIndex) (id : ℕ) (pos : Vec2) : SpatialIndex :=
  if s.positions.any (fun kv => kv.1 = id) then
    ⟨s.positions.map (fun kv => if kv.1 = id then (id, pos) else kv)⟩
  else
    ⟨s.positions ++ [(id, pos)]⟩

/-- HashMap::remove. -/
def remove (s : SpatialIndex) (id : ℕ) : SpatialIndex :=
  ⟨s.positions.filter (fun kv => kv.1 ≠ id)⟩

/-- SpatialIndex::query_radius: scan all indexed positions, keep those with
squared distance at most radius², then sort the ids ascending. -/
def queryRadius (s : SpatialIndex) (center : Vec2) (radius : ℚ) : List ℕ :=
  let radiusSq := radius * radius
  let results :=
    (s.positions.filter
      (fun kv => decide (Vec2.distanceSquared center kv.2 ≤ radiusSq))).map Prod.fst
  results.insertionSort (· ≤ ·)

end SpatialIndex

/-- The arena (arena.rs Arena).  The BTreeMap of entities is a list held in
ascending-id order; iteration order is the list order. -/
structure Arena where
  nextId : ℕ
  entities : List Entity
  spatial : SpatialIndex
  tick : ℕ
  nextTraceId : ℕ
  deriving DecidableEq, Repr

namespace Arena

/-- Arena::get. -/
def get (a : Arena) (id : ℕ) : Option Entity :=
  a.entities.find? (fun e => e.id = id)

/-- Mutation through Arena::get_mut: apply f to the entity with the given id
(if present), leaving all other entities unchanged. -/
def modifyEntity (a : Arena) (id : ℕ) (f : Entity → Entity) : Arena :=
  { a with entities := a.entities.map (fun e => if e.id = id then f e else e) }

/-- Arena::update_spatial. -/
def updateSpatial (a : Arena) (id : ℕ) : Arena :=
  match a.get id with
  | some e => { a with spatial := a.spatial.insert id e.position }
  | none => a

/-- Arena::advance_tick. -/
def advanceTick (a : Arena) : Arena := { a with tick := a.tick + 1 }

end Arena

/-- Command outputs (output.rs Command). -/
inductive Command where
  | setVelocity (target : ℕ) (velocity : Vec2)
  | setHeading (target : ℕ) (heading : ℚ)
  | fireWeapon (source target : ℕ) (slot : ℕ)
  | spawnProjectile (source : ℕ) (weaponSlot : ℕ) (targetPos : Vec2)
  deriving DecidableEq, Repr

/-- Modifier outputs (output.rs Modifier). -/
inductive Modifier where
  | applyDamage (target : ℕ) (amount : ℚ)
  | applyHealing (target : ℕ) (amount : ℚ)
  | setStatusFlag (target : ℕ) (flag : StatusFlags) (value : Bool)
  | modifyStat (target : ℕ) (statId : ℕ) (delta : ℚ)
  deriving DecidableEq, Repr

/-- Event outputs (output.rs Event). -/
inductive Event where
  | weaponFired (source : ℕ) (weaponSlot : ℕ)
  | damageDealt (source target : ℕ) (amount : ℚ)
  | entityDestroyed (entity : ℕ) (destroyer : Option ℕ)
  | contactDetected (observer target : ℕ) (quality : TrackQuality)
  deriving DecidableEq, Repr

/-- Output kinds for resolver routing (output.rs OutputKind). -/
inductive OutputKind where
  | command | modifier | event
  deriving DecidableEq, Repr

/-- A plugin output (output.rs Output). -/
inductive Output where
  | command (c : Command)
  | modifier (m : Modifier)
  | event (e : Event)
  deriving DecidableEq, Repr

namespace Output

/-- Output::kind. -/
def kind : Output → OutputKind
  | .command _ => .command
  | .modifier _ => .modifier
  | .event _ => .event

/-- Output::is_event. -/
def isEvent : Output → Bool
  | .event _ => true
  | _ => false

end Output

/-- Plugin ids (output.rs PluginId) are strings compared byte-lexicographically
by str::cmp; a string is embedded as its character list, whose order in
Mathlib is the same lexicographic order. -/
abbrev PluginIdM := List Char

/-- An output envelope (output.rs OutputEnvelope); the source
PluginInstanceId is flattened into its entity id and plugin id. -/
structure OutputEnvelope where
  output : Output
  sourceEntity : ℕ
  sourcePlugin : PluginIdM
  cause : Option ℕ
  traceId : ℕ
  tick : ℕ
  sequence : ℕ
  deriving DecidableEq, Repr

/-- The sort key used by Simulation::execute_plugins_parallel. -/
def OutputEnvelope.sortKey (e : OutputEnvelope) : ℕ × PluginIdM × ℕ :=
  (e.sourceEntity, e.sourcePlugin, e.sequence)

/-- The comparator of the envelope sort in execute_plugins_parallel:
entity id ascending, then plugin id lexicographically, then sequence. -/
def envLE (a b : OutputEnvelope) : Prop :=
  a.sourceEntity < b.sourceEntity ∨
    (a.sourceEntity = b.sourceEntity ∧
      (a.sourcePlugin < b.sourcePlugin ∨
        (a.sourcePlugin = b.sourcePlugin ∧ a.sequence ≤ b.sequence)))

instance : DecidableRel envLE := fun a b => by
  unfold envLE; infer_instance

instance : IsTotal OutputEnvelope envLE := by
  constructor
  intro a b
  unfold envLE
  rcases lt_trichotomy a.sourceEntity b.sourceEntity with h | h | h
  · exact Or.inl (Or.inl h)
  · rcases lt_trichotomy a.sourcePlugin b.sourcePlugin with h2 | h2 | h2
    · exact Or.inl (Or.inr ⟨h, Or.inl h2⟩)
    · rcases Nat.le_total a.sequence b.sequence with h3 | h3
      · exact Or.inl (Or.inr ⟨h, Or.inr ⟨h2, h3⟩⟩)
      · exact Or.inr (Or.inr ⟨h.symm, Or.inr ⟨h2.symm, h3⟩⟩)
    · exact Or.inr (Or.inr ⟨h.symm, Or.inl h2⟩)
  · exact Or.inr (Or.inl h)

instance : IsTrans OutputEnvelope envLE := by
  constructor
  intro a b c hab hbc
  unfold envLE at *
  rcases hab with h1 | ⟨e1, h1⟩
  · rcases hbc with h2 | ⟨e2, _⟩
    · exact Or.inl (h1.trans h2)
    · exact Or.inl (e2 ▸ h1)
  · rcases hbc with h2 | ⟨e2, h2⟩
    · exact Or.inl (e1 ▸ h2)
    · refine Or.inr ⟨e1.trans e2, ?_⟩
      rcases h1 with p1 | ⟨q1, s1⟩
      · rcases h2 with p2 | ⟨q2, _⟩
        · exact Or.inl (p1.trans p2)
        · exact Or.inl (q2 ▸ p1)
      · rcases h2 with p2 | ⟨q2, s2⟩
        · exact Or.inl (q1 ▸ p2)
        · exact Or.inr ⟨q1.trans q2, s1.trans s2⟩

/-- Plugin context (plugin.rs PluginContext). -/
structure PluginContext where
  entityId : ℕ
  tick : ℕ
  traceId : ℕ
  deriving DecidableEq, Repr

/-- A plugin (plugin.rs Plugin trait): a declared id and a pure run function.
The WorldView argument is the current arena; the runs of the concrete
plugins below only read components within their declarations. -/
structure Plugin where
  id : PluginIdM
  run : PluginContext → Arena → List Output

/-- The plugin registry (plugin.rs PluginRegistry): plugin bundles by tag. -/
def PluginRegistry := EntityTag → List Plugin

/-- PluginRegistry::plugins_for. -/
def PluginRegistry.pluginsFor (r : PluginRegistry) (tag : EntityTag) : List Plugin := r tag

/-- Envelopes produced by one work item (entity, plugin index, plugin) of the
plugin phase: run the plugin and wrap each output with source, trace id,
tick and per-plugin sequence number. -/
def runWorkItem (traceHash : ℕ → ℕ → ℕ → ℕ → ℕ) (seed : ℕ) (tick : ℕ)
    (arena : Arena) (entityId pluginIdx : ℕ) (p : Plugin) : List OutputEnvelope :=
  let traceId := traceHash seed tick entityId pluginIdx
  let ctx : PluginContext := ⟨entityId, tick, traceId⟩
  let outputs := p.run ctx arena
  (outputs.enum).map (fun oi =>
    { output := oi.2
      sourceEntity := entityId
      sourcePlugin := p.id
      cause := none
      traceId := traceId
      tick := tick
      sequence := oi.1 })

/-- Simulation::execute_plugins_parallel: build the work list by iterating
entities in id order and, per entity, the plugins registered for its tag in
registration order; wrap outputs in envelopes; then sort all envelopes by
(entity id, plugin id lexicographic, sequence).  The parallel execution is
modelled by its deterministic result list; the sort (Rust's stable sort_by)
is an insertion sort under the same comparator. -/
def pluginPhaseOutputs (traceHash : ℕ → ℕ → ℕ → ℕ → ℕ) (seed : ℕ)
    (plugins : PluginRegistry) (arena : Arena) (tick : ℕ) : List OutputEnvelope :=
  arena.entities.flatMap (fun e =>
    ((plugins.pluginsFor e.tag).enum).flatMap (fun pi =>
      runWorkItem traceHash seed tick arena e.id pi.1 pi.2))

/-- The sorted envelope list handed to the resolvers (see
pluginPhaseOutputs for the work-list construction). -/
def executePluginsParallel (traceHash : ℕ → ℕ → ℕ → ℕ → ℕ) (seed : ℕ)
    (plugins : PluginRegistry) (arena : Arena) (tick : ℕ) : List OutputEnvelope :=
  (pluginPhaseOutputs traceHash seed plugins arena tick).insertionSort envLE

/-- Fixed physics timestep (resolver/physics.rs FIXED_DT = 1/60). -/
def FIXED_DT : ℚ := 1 / 60

/-- PhysicsResolver::apply_set_velocity. -/
def applySetVelocity (next : Arena) (target : ℕ) (velocity : Vec2) : Arena :=
  next.modifyEntity target (fun e =>
    match e.inner with
    | .ship c => { e with inner := .ship { c with physics := { c.physics with velocity := velocity } } }
    | .projectile c => { e with inner := .projectile { c with physics := { c.physics with velocity := velocity } } }
    | .squadron c => { e with inner := .squadron { c with physics := { c.physics with velocity := velocity } } }
    | .platform _ => e)

/-- PhysicsResolver::apply_set_heading. -/
def applySetHeading (next : Arena) (target : ℕ) (heading : ℚ) : Arena :=
  next.modifyEntity target (fun e =>
    match e.inner with
    | .ship c => { e with inner := .ship { c with transform := { c.transform with heading := heading } } }
    | .platform c => { e with inner := .platform { c with transform := { c.transform with heading := heading } } }
    | .projectile c => { e with inner := .projectile { c with transform := { c.transform with heading := heading } } }
    | .squadron c => { e with inner := .squadron { c with transform := { c.transform with heading := heading } } })

/-- Whether an entity has a nonzero velocity (first pass of
PhysicsResolver::integrate_physics). -/
def hasVelocity (e : Entity) : Bool :=
  match e.inner with
  | .ship c => decide (c.physics.velocity ≠ Vec2.zero)
  | .projectile c => decide (c.physics.velocity ≠ Vec2.zero)
  | .squadron c => decide (c.physics.velocity ≠ Vec2.zero)
  | .platform _ => false

/-- Position integration for one entity: position += velocity * dt. -/
def integrateEntity (dt : ℚ) (e : Entity) : Entity :=
  match e.inner with
  | .ship c =>
      { e with inner := .ship { c with transform :=
          { c.transform with position := c.transform.position.add (c.physics.velocity.scale dt) } } }
  | .projectile c =>
      { e with inner := .projectile { c with transform :=
          { c.transform with position := c.transform.position.add (c.physics.velocity.scale dt) } } }
  | .squadron c =>
      { e with inner := .squadron { c with transform :=
          { c.transform with position := c.transform.position.add (c.physics.velocity.scale dt) } } }
  | .platform _ => e

/-- PhysicsResolver::integrate_physics: collect moved ids, integrate all
entities, then resynchronise the spatial index for the moved ids. -/
def integratePhysics (dt : ℚ) (next : Arena) : Arena :=
  let movedEntities := (next.entities.filter (fun e => hasVelocity e)).map Entity.id
  let next := { next with entities := next.entities.map (integrateEntity dt) }
  movedEntities.foldl (fun a id => a.updateSpatial id) next

/-- PhysicsResolver::resolve: process SetVelocity and SetHeading in order
(FireWeapon and SpawnProjectile are ignored), then integrate physics. -/
def physicsResolve (dt : ℚ) (outputs : List OutputEnvelope) (next : Arena) : Arena :=
  let next := outputs.foldl (fun a env =>
    match env.output with
    | .command (.setVelocity target velocity) => applySetVelocity a target velocity
    | .command (.setHeading target heading) => applySetHeading a target heading
    | _ => a) next
  integratePhysics dt next

/-- CombatResolver::apply_damage. -/
def applyDamage (next : Arena) (target : ℕ) (amount : ℚ) : Arena :=
  next.modifyEntity target (fun e =>
    match e.inner with
    | .ship c =>
        let hp := c.combat.hp - amount
        let combat :=
          if hp ≤ 0 then
            { c.combat with
                hp := 0
                statusFlags := c.combat.statusFlags.insertFlag StatusFlags.DESTROYED }
          else { c.combat with hp := hp }
        { e with inner := .ship { c with combat := combat } }
    | .squadron c =>
        let hp := c.combat.hp - amount
        let combat :=
          if hp ≤ 0 then
            { c.combat with
                hp := 0
                statusFlags := c.combat.statusFlags.insertFlag StatusFlags.DESTROYED }
          else { c.combat with hp := hp }
        { e with inner := .squadron { c with combat := combat } }
    | _ => e)

/-- CombatResolver::apply_healing. -/
def applyHealing (next : Arena) (target : ℕ) (amount : ℚ) : Arena :=
  next.modifyEntity target (fun e =>
    match e.inner with
    | .ship c =>
        { e with inner := .ship { c with combat :=
            { c.combat with hp := min (c.combat.hp + amount) c.combat.maxHp } } }
    | .squadron c =>
        { e with inner := .squadron { c with combat :=
            { c.combat with hp := min (c.combat.hp + amount) c.combat.maxHp } } }
    | _ => e)

/-- CombatResolver::set_status_flag. -/
def setStatusFlag (next : Arena) (target : ℕ) (flag : StatusFlags) (value : Bool) : Arena :=
  next.modifyEntity target (fun e =>
    match e.inner with
    | .ship c =>
        let flags := if value then c.combat.statusFlags.insertFlag flag
                     else c.combat.statusFlags.removeFlag flag
        { e with inner := .ship { c with combat := { c.combat with statusFlags := flags } } }
    | .squadron c =>
        let flags := if value then c.combat.statusFlags.insertFlag flag
                     else c.combat.statusFlags.removeFlag flag
        { e with inner := .squadron { c with combat := { c.combat with statusFlags := flags } } }
    | _ => e)

/-- CombatResolver::resolve: process modifiers in order; ModifyStat is not
implemented in the MVP. -/
def combatResolve (outputs : List OutputEnvelope) (next : Arena) : Arena :=
  outputs.foldl (fun a env =>
    match env.output with
    | .modifier (.applyDamage target amount) => applyDamage a target amount
    | .modifier (.applyHealing target amount) => applyHealing a target amount
    | .modifier (.setStatusFlag target flag value) => setStatusFlag a target flag value
    | _ => a) next

/-- EventResolver::resolve: append every event envelope to the log, without
touching the arena. -/
def eventResolve (outputs : List OutputEnvelope) (log : List OutputEnvelope) :
    List OutputEnvelope :=
  log ++ outputs.filter (fun env => env.output.isEvent)

/-- The simulation (simulation.rs Simulation) with its default resolver set
(Physics, Combat, Event).  The event resolver's internal log is carried as a
field so that take_events is observable. -/
structure Simulation where
  current : Arena
  next : Arena
  plugins : PluginRegistry
  masterSeed : ℕ
  eventLog : List OutputEnvelope

/-- Simulation::step with the default resolvers: SNAPSHOT (implicit), PLUGIN
(execute and sort envelopes), RESOLUTION (clone current to next, then run
Physics on the Command envelopes, Combat on the Modifier envelopes and Event
on the Event envelopes, each receiving the kind-filtered sorted list), APPLY
(swap buffers and advance the tick).  traceHash stands for the DefaultHasher
mix used for trace-id generation. -/
def Simulation.step (traceHash : ℕ → ℕ → ℕ → ℕ → ℕ) (sim : Simulation) : Simulation :=
  let tick := sim.current.tick
  let outputs := executePluginsParallel traceHash sim.masterSeed sim.plugins sim.current tick
  let next0 := sim.current
  let next1 := physicsResolve FIXED_DT
    (outputs.filter (fun o => o.output.kind = OutputKind.command)) next0
  let next2 := combatResolve
    (outputs.filter (fun o => o.output.kind = OutputKind.modifier)) next1
  let log := eventResolve
    (outputs.filter (fun o => o.output.kind = OutputKind.event)) sim.eventLog
  { sim with
    current := next2.advanceTick
    next := sim.current
    eventLog := log }

/-- Spec-side distance predicate for C7: the euclidean distance from the
centre to a position is at most the radius. -/
def distLE (center p : Vec2) (radius : ℚ) : Prop :=
  Real.sqrt ((Vec2.distanceSquared center p : ℚ) : ℝ) ≤ ((radius : ℚ) : ℝ)

theorem distanceSquared_nonneg (a b : Vec2) : 0 ≤ Vec2.distanceSquared a b := by
  unfold Vec2.distanceSquared
  nlinarith [sq_nonneg (a.x - b.x), sq_nonneg (a.y - b.y)]

theorem distLE_iff (center p : Vec2) (radius : ℚ) (hr : 0 ≤ radius) :
    distLE center p radius ↔ Vec2.distanceSquared center p ≤ radius * radius := by
  unfold distLE
  have hd : (0 : ℝ) ≤ ((Vec2.distanceSquared center p : ℚ) : ℝ) := by
    exact_mod_cast distanceSquared_nonneg center p
  have hr' : (0 : ℝ) ≤ ((radius : ℚ) : ℝ) := by exact_mod_cast hr
  constructor
  · intro h
    have h2 : ((Vec2.distanceSquared center p : ℚ) : ℝ) ≤ ((radius : ℚ) : ℝ) ^ 2 := by
      have := Real.sq_sqrt hd
      nlinarith [Real.sqrt_nonneg ((Vec2.distanceSquared center p : ℚ) : ℝ)]
    have : ((Vec2.distanceSquared center p : ℚ) : ℝ) ≤ ((radius * radius : ℚ) : ℝ) := by
      push_cast
      nlinarith
    exact_mod_cast this
  · intro h
    have h2 : ((Vec2.distanceSquared center p : ℚ) : ℝ) ≤ ((radius : ℚ) : ℝ) ^ 2 := by
      have : ((Vec2.distanceSquared center p : ℚ) : ℝ) ≤ ((radius * radius : ℚ) : ℝ) := by
        exact_mod_cast h
      push_cast at this
      nlinarith
    calc Real.sqrt ((Vec2.distanceSquared center p : ℚ) : ℝ)
        ≤ Real.sqrt (((radius : ℚ) : ℝ) ^ 2) := Real.sqrt_le_sqrt h2
      _ = ((radius : ℚ) : ℝ) := by rw [Real.sqrt_sq hr']

/-- C1 helper fact reused here: the filtered id list of a key-unique
position table has no duplicates. -/
theorem queryRadius_nodup (s : SpatialIndex) (center : Vec2) (radius : ℚ)
    (hnodup : (s.positions.map Prod.fst).Nodup) :
    (s.queryRadius center radius).Nodup := by
  unfold SpatialIndex.queryRadius
  have hsub :
      ((s.positions.filter
        (fun kv => decide (Vec2.distanceSquared center kv.2 ≤ radius * radius))).map
          Prod.fst).Sublist (s.positions.map Prod.fst) :=
    List.Sublist.map Prod.fst (List.filter_sublist _)
  have h1 := hnodup.sublist hsub
  exact ((List.perm_insertionSort (· ≤ ·) _).nodup_iff).mpr h1

/-- C7 (corrected, amended part).  For a key-unique index and a nonnegative
radius, query_radius returns a strictly ascending list that contains an id
exactly when some indexed position of that id lies within euclidean
distance radius of the centre (boundary included). -/
theorem queryRadius_correct (s : SpatialIndex) (center : Vec2) (radius : ℚ)
    (hnodup : (s.positions.map Prod.fst).Nodup) (hr : 0 ≤ radius) :
    List.Sorted (· < ·) (s.queryRadius center radius) ∧
    ∀ id : ℕ, id ∈ s.queryRadius center radius ↔
      ∃ p, (id, p) ∈ s.positions ∧ distLE center p radius := by
  constructor
  · have hsorted : List.Sorted (· ≤ ·) (s.queryRadius center radius) :=
      List.sorted_insertionSort (· ≤ ·) _
    have hnd := queryRadius_nodup s center radius hnodup
    have := List.Pairwise.and hsorted hnd
    exact this.imp (fun h => lt_of_le_of_ne h.1 h.2)
  · intro id
    unfold SpatialIndex.queryRadius
    rw [(List.perm_insertionSort (· ≤ ·) _).mem_iff]
    simp only [List.mem_map, List.mem_filter, decide_eq_true_eq]
    constructor
    · rintro ⟨⟨k, p⟩, ⟨hmem, hdist⟩, rfl⟩
      exact ⟨p, hmem, (distLE_iff center p radius hr).mpr hdist⟩
    · rintro ⟨p, hmem, hdist⟩
      exact ⟨(id, p), ⟨hmem, (distLE_iff center p radius hr).mp hdist⟩, rfl⟩

/-- C7 witness instance: a two-entry index queried with radius 5. -/
theorem queryRadius_correct_witness :
    (((SpatialIndex.mk [(1, ⟨0, 0⟩), (0, ⟨3, 4⟩)]).positions.map Prod.fst).Nodup ∧
      (0 : ℚ) ≤ 5) ∧
    (List.Sorted (· < ·)
        ((SpatialIndex.mk [(1, ⟨0, 0⟩), (0, ⟨3, 4⟩)]).queryRadius ⟨0, 0⟩ 5) ∧
      ∀ id : ℕ,
        id ∈ (SpatialIndex.mk [(1, ⟨0, 0⟩), (0, ⟨3, 4⟩)]).queryRadius ⟨0, 0⟩ 5 ↔
          ∃ p, (id, p) ∈ (SpatialIndex.mk [(1, ⟨0, 0⟩), (0, ⟨3, 4⟩)]).positions ∧
            distLE ⟨0, 0⟩ p 5) :=
  ⟨⟨by decide, by norm_num⟩,
    queryRadius_correct (SpatialIndex.mk [(1, ⟨0, 0⟩), (0, ⟨3, 4⟩)]) ⟨0, 0⟩ 5
      (by decide) (by norm_num)⟩

/-- C7 counterexample: with a negative radius the code still returns an id
(the comparison is distance² ≤ radius²), although no point is at distance
at most that radius; at radius −1 an entity at the centre itself is
returned while its distance 0 is not ≤ −1. -/
theorem queryRadius_negative_radius_counterexample :
    0 ∈ (SpatialIndex.mk [(0, ⟨0, 0⟩)]).queryRadius ⟨0, 0⟩ (-1) ∧
    ¬ distLE ⟨0, 0⟩ ⟨0, 0⟩ (-1) := by
  constructor
  · norm_num [SpatialIndex.queryRadius, Vec2.distanceSquared, List.insertionSort,
      List.orderedInsert]
  · intro h
    rw [distLE] at h
    have h0 : ((Vec2.distanceSquared ⟨0, 0⟩ ⟨0, 0⟩ : ℚ) : ℝ) = 0 := by
      norm_num [Vec2.distanceSquared]
    rw [h0, Real.sqrt_zero] at h
    norm_num at h

/-- The strict version of the envelope comparator. -/
def envLT (a b : OutputEnvelope) : Prop :=
  a.sourceEntity < b.sourceEntity ∨
    (a.sourceEntity = b.sourceEntity ∧
      (a.sourcePlugin < b.sourcePlugin ∨
        (a.sourcePlugin = b.sourcePlugin ∧ a.sequence < b.sequence)))

theorem envLT_of_envLE_ne {a b : OutputEnvelope} (h : envLE a b)
    (hne : a.sortKey ≠ b.sortKey) : envLT a b := by
  unfold envLE at h
  unfold envLT
  rcases h with h | ⟨e1, h⟩
  · exact Or.inl h
  rcases h with h | ⟨e2, h⟩
  · exact Or.inr ⟨e1, Or.inl h⟩
  refine Or.inr ⟨e1, Or.inr ⟨e2, ?_⟩⟩
  rcases lt_or_eq_of_le h with h3 | h3
  · exact h3
  · exact absurd (by unfold OutputEnvelope.sortKey; rw [e1, e2, h3]) hne

theorem envLT_asymm {a b : OutputEnvelope} (h1 : envLT a b) (h2 : envLT b a) : False := by
  unfold envLT at h1 h2
  rcases h1 with h1 | ⟨e1, h1⟩
  · rcases h2 with h2 | ⟨e2, _⟩
    · exact absurd h2 (lt_asymm h1)
    · exact absurd (e2 ▸ h1) (lt_irrefl _)
  rcases h2 with h2 | ⟨_, h2⟩
  · exact absurd (e1 ▸ h2) (lt_irrefl _)
  rcases h1 with h1 | ⟨f1, h1⟩
  · rcases h2 with h2 | ⟨f2, _⟩
    · exact absurd h2 (lt_asymm h1)
    · exact absurd (f2 ▸ h1) (lt_irrefl _)
  rcases h2 with h2 | ⟨_, h2⟩
  · exact absurd (f1 ▸ h2) (lt_irrefl _)
  · exact absurd (h1.trans h2) (lt_irrefl _)

instance : IsAntisymm OutputEnvelope envLT :=
  ⟨fun _ _ h1 h2 => (envLT_asymm h1 h2).elim⟩

theorem runWorkItem_keys (traceHash : ℕ → ℕ → ℕ → ℕ → ℕ) (seed tick : ℕ)
    (arena : Arena) (eid idx : ℕ) (p : Plugin) :
    (runWorkItem traceHash seed tick arena eid idx p).map OutputEnvelope.sortKey =
      (List.range (p.run ⟨eid, tick, traceHash seed tick eid idx⟩ arena).length).map
        (fun k => (eid, p.id, k)) := by
  unfold runWorkItem
  simp only [List.map_map]
  rw [← List.enum_map_fst, List.map_map]
  rfl

theorem runWorkItem_keys_nodup (traceHash : ℕ → ℕ → ℕ → ℕ → ℕ) (seed tick : ℕ)
    (arena : Arena) (eid idx : ℕ) (p : Plugin) :
    ((runWorkItem traceHash seed tick arena eid idx p).map OutputEnvelope.sortKey).Nodup := by
  rw [runWorkItem_keys]
  refine List.Nodup.map ?_ (List.nodup_range _)
  intro x y h
  simpa using h

theorem runWorkItem_keys_shape (traceHash : ℕ → ℕ → ℕ → ℕ → ℕ) (seed tick : ℕ)
    (arena : Arena) (eid idx : ℕ) (p : Plugin) (k : ℕ × PluginIdM × ℕ)
    (hk : k ∈ (runWorkItem traceHash seed tick arena eid idx p).map OutputEnvelope.sortKey) :
    k.1 = eid ∧ k.2.1 = p.id := by
  rw [runWorkItem_keys] at hk
  rcases List.mem_map.mp hk with ⟨j, _, rfl⟩
  exact ⟨rfl, rfl⟩

/-- The envelopes of a single entity in the work list. -/
def entityOutputs (traceHash : ℕ → ℕ → ℕ → ℕ → ℕ) (seed tick : ℕ)
    (plugins : PluginRegistry) (arena : Arena) (e : Entity) : List OutputEnvelope :=
  ((plugins.pluginsFor e.tag).enum).flatMap (fun pi =>
    runWorkItem traceHash seed tick arena e.id pi.1 pi.2)

theorem pluginPhaseOutputs_eq (traceHash : ℕ → ℕ → ℕ → ℕ → ℕ) (seed : ℕ)
    (plugins : PluginRegistry) (arena : Arena) (tick : ℕ) :
    pluginPhaseOutputs traceHash seed plugins arena tick =
      arena.entities.flatMap (entityOutputs traceHash seed tick plugins arena) := rfl

theorem entityOutputs_keys_nodup (traceHash : ℕ → ℕ → ℕ → ℕ → ℕ) (seed tick : ℕ)
    (plugins : PluginRegistry) (arena : Arena) (e : Entity)
    (hids : ((plugins.pluginsFor e.tag).map Plugin.id).Nodup) :
    ((entityOutputs traceHash seed tick plugins arena e).map OutputEnvelope.sortKey).Nodup := by
  unfold entityOutputs
  rw [List.map_flatMap]
  refine List.nodup_flatMap.mpr ⟨?_, ?_⟩
  · intro pi _
    exact runWorkItem_keys_nodup traceHash seed tick arena e.id pi.1 pi.2
  · have hpw : List.Pairwise (fun p q : Plugin => p.id ≠ q.id) (plugins.pluginsFor e.tag) := by
      have := hids
      rw [List.Nodup] at this
      exact List.pairwise_map.mp this
    have henum : List.Pairwise
        (fun pi qi : ℕ × Plugin => pi.2.id ≠ qi.2.id) (plugins.pluginsFor e.tag).enum := by
      have h2 : List.Pairwise (fun p q : Plugin => p.id ≠ q.id)
          ((plugins.pluginsFor e.tag).enum.map Prod.snd) := by
        rw [List.enum_map_snd]
        exact hpw
      have h3 := List.pairwise_map.mp h2
      exact h3
    refine henum.imp ?_
    intro pi qi hne k hk1 hk2
    have h1 := runWorkItem_keys_shape traceHash seed tick arena e.id pi.1 pi.2 k hk1
    have h2 := runWorkItem_keys_shape traceHash seed tick arena e.id qi.1 qi.2 k hk2
    exact hne (h1.2.symm.trans h2.2)

theorem entityOutputs_keys_entity (traceHash : ℕ → ℕ → ℕ → ℕ → ℕ) (seed tick : ℕ)
    (plugins : PluginRegistry) (arena : Arena) (e : Entity) (k : ℕ × PluginIdM × ℕ)
    (hk : k ∈ (entityOutputs traceHash seed tick plugins arena e).map OutputEnvelope.sortKey) :
    k.1 = e.id := by
  unfold entityOutputs at hk
  rw [List.map_flatMap] at hk
  rcases List.mem_flatMap.mp hk with ⟨pi, _, hmem⟩
  exact (runWorkItem_keys_shape traceHash seed tick arena e.id pi.1 pi.2 k hmem).1

theorem pluginPhase_keys_nodup (traceHash : ℕ → ℕ → ℕ → ℕ → ℕ) (seed : ℕ)
    (plugins : PluginRegistry) (arena : Arena) (tick : ℕ)
    (hids : ∀ tag, ((plugins.pluginsFor tag).map Plugin.id).Nodup)
    (hentities : (arena.entities.map Entity.id).Nodup) :
    ((pluginPhaseOutputs traceHash seed plugins arena tick).map OutputEnvelope.sortKey).Nodup := by
  rw [pluginPhaseOutputs_eq, List.map_flatMap]
  refine List.nodup_flatMap.mpr ⟨?_, ?_⟩
  · intro e _
    exact entityOutputs_keys_nodup traceHash seed tick plugins arena e (hids e.tag)
  · have hpw : List.Pairwise (fun a b : Entity => a.id ≠ b.id) arena.entities := by
      have := hentities
      rw [List.Nodup] at this
      exact List.pairwise_map.mp this
    refine hpw.imp ?_
    intro e1 e2 hne k hk1 hk2
    have h1 := entityOutputs_keys_entity traceHash seed tick plugins arena e1 k hk1
    have h2 := entityOutputs_keys_entity traceHash seed tick plugins arena e2 k hk2
    exact hne (h1.symm.trans h2)

theorem sorted_envLT_of_sorted_keys_nodup (l : List OutputEnvelope)
    (hs : List.Sorted envLE l) (hk : (l.map OutputEnvelope.sortKey).Nodup) :
    List.Sorted envLT l := by
  have hpw : List.Pairwise
      (fun a b : OutputEnvelope => a.sortKey ≠ b.sortKey) l := by
    have := hk
    rw [List.Nodup] at this
    exact List.pairwise_map.mp this
  have := List.Pairwise.and hs hpw
  exact this.imp (fun h => envLT_of_envLE_ne h.1 h.2)

/-- C1 (corrected, amended part).  For every arena whose entity ids are
unique (an Arena invariant) and every registry whose plugin ids are
pairwise distinct per tag, the envelope list produced by the PLUGIN phase
and handed to the resolvers is sorted under the comparator (source entity
id, plugin id lexicographic, sequence); the key triple occurs at most once
per envelope; and sorting any parallel completion order (any permutation of
the unsorted work-list output) yields the same list. -/
theorem executePlugins_sorted_unique_key (traceHash : ℕ → ℕ → ℕ → ℕ → ℕ) (seed : ℕ)
    (plugins : PluginRegistry) (arena : Arena) (tick : ℕ)
    (hids : ∀ tag, ((plugins.pluginsFor tag).map Plugin.id).Nodup)
    (hentities : (arena.entities.map Entity.id).Nodup) :
    List.Sorted envLE (executePluginsParallel traceHash seed plugins arena tick) ∧
    ((executePluginsParallel traceHash seed plugins arena tick).map
      OutputEnvelope.sortKey).Nodup ∧
    ∀ l : List OutputEnvelope,
      l.Perm (pluginPhaseOutputs traceHash seed plugins arena tick) →
      l.insertionSort envLE = executePluginsParallel traceHash seed plugins arena tick := by
  have hphase := pluginPhase_keys_nodup traceHash seed plugins arena tick hids hentities
  have hsorted : List.Sorted envLE (executePluginsParallel traceHash seed plugins arena tick) :=
    List.sorted_insertionSort envLE _
  have hperm : (executePluginsParallel traceHash seed plugins arena tick).Perm
      (pluginPhaseOutputs traceHash seed plugins arena tick) :=
    List.perm_insertionSort envLE _
  have hkeys : ((executePluginsParallel traceHash seed plugins arena tick).map
      OutputEnvelope.sortKey).Nodup :=
    ((hperm.map OutputEnvelope.sortKey).nodup_iff).mpr hphase
  refine ⟨hsorted, hkeys, ?_⟩
  intro l hl
  have hsl : List.Sorted envLE (l.insertionSort envLE) := List.sorted_insertionSort envLE l
  have hpl : (l.insertionSort envLE).Perm
      (pluginPhaseOutputs traceHash seed plugins arena tick) :=
    (List.perm_insertionSort envLE l).trans hl
  have hkl : ((l.insertionSort envLE).map OutputEnvelope.sortKey).Nodup :=
    ((hpl.map OutputEnvelope.sortKey).nodup_iff).mpr hphase
  exact List.eq_of_perm_of_sorted (hpl.trans hperm.symm)
    (sorted_envLT_of_sorted_keys_nodup _ hsl hkl)
    (sorted_envLT_of_sorted_keys_nodup _ hsorted hkeys)

/-- Ship components used by the concrete scenarios: the values of
ShipComponents::default() from entity/components.rs. -/
def defaultShip : ShipComponents :=
  { transform := ⟨⟨0, 0⟩, 0⟩
    physics := ⟨⟨0, 0⟩, 0, 10, 1⟩
    combat := ⟨100, 100, [], StatusFlags.emptyFlags⟩
    sensor := ⟨10000, 5000, .passive, []⟩
    inventory := ⟨1000, 1000, []⟩ }

/-- A plugin with declared id p that emits one event per run. -/
def pluginP : Plugin :=
  ⟨['p'], fun ctx _ => [Output.event (.weaponFired ctx.entityId 0)]⟩

/-- A registry in which the id p is registered twice for ships -
PluginRegistry::register never deduplicates. -/
def duplicateIdRegistry : PluginRegistry := fun tag =>
  match tag with
  | .ship => [pluginP, pluginP]
  | _ => []

/-- A one-ship arena. -/
def oneShipArena : Arena :=
  ⟨1, [⟨0, .ship, .ship defaultShip⟩], ⟨[(0, ⟨0, 0⟩)]⟩, 0, 0⟩

/-- A trivial stand-in for the trace-id hash. -/
def zeroHash : ℕ → ℕ → ℕ → ℕ → ℕ := fun _ _ _ _ => 0

/-- C1 counterexample: with the same plugin id registered twice for the
Ship tag (which PluginRegistry::register permits), the sorted envelope list
contains two envelopes with the identical key (entity 0, plugin id p,
sequence 0), so the claimed key triple is not a unique key. -/
theorem executePlugins_duplicate_id_counterexample :
    ¬ ((executePluginsParallel zeroHash 0 duplicateIdRegistry oneShipArena 0).map
        OutputEnvelope.sortKey).Nodup := by
  decide

/-- C1 witness instance: a singleton registry and a one-ship arena. -/
theorem executePlugins_sorted_unique_key_witness :
    ((∀ tag, ((duplicateIdRegistry.pluginsFor tag).take 1).map Plugin.id |>.Nodup) ∧
      (oneShipArena.entities.map Entity.id).Nodup) ∧
    (List.Sorted envLE
        (executePluginsParallel zeroHash 0
          (fun tag => (duplicateIdRegistry tag).take 1) oneShipArena 0) ∧
      ((executePluginsParallel zeroHash 0
          (fun tag => (duplicateIdRegistry tag).take 1) oneShipArena 0).map
        OutputEnvelope.sortKey).Nodup ∧
      ∀ l : List OutputEnvelope,
        l.Perm (pluginPhaseOutputs zeroHash 0
          (fun tag => (duplicateIdRegistry tag).take 1) oneShipArena 0) →
        l.insertionSort envLE =
          executePluginsParallel zeroHash 0
            (fun tag => (duplicateIdRegistry tag).take 1) oneShipArena 0) :=
  ⟨⟨by intro tag; cases tag <;> decide, by decide⟩,
    executePlugins_sorted_unique_key zeroHash 0
      (fun tag => (duplicateIdRegistry tag).take 1) oneShipArena 0
      (by intro tag; cases tag <;> decide) (by decide)⟩

/-- Entity-id and tick preservation facts used for C10. -/
def preservesIds (a b : Arena) : Prop :=
  b.entities.map Entity.id = a.entities.map Entity.id ∧ b.tick = a.tick

theorem preservesIds_refl (a : Arena) : preservesIds a a := ⟨rfl, rfl⟩

theorem preservesIds_trans {a b c : Arena} (h1 : preservesIds a b)
    (h2 : preservesIds b c) : preservesIds a c :=
  ⟨h2.1.trans h1.1, h2.2.trans h1.2⟩

theorem modifyEntity_preservesIds (a : Arena) (id : ℕ) (f : Entity → Entity)
    (hf : ∀ e, (f e).id = e.id) : preservesIds a (a.modifyEntity id f) := by
  constructor
  · show (a.entities.map _).map Entity.id = _
    rw [List.map_map]
    refine List.map_congr_left ?_
    intro e _
    by_cases h : e.id = id <;> simp [h, hf]
  · rfl

theorem applySetVelocity_preservesIds (a : Arena) (t : ℕ) (v : Vec2) :
    preservesIds a (applySetVelocity a t v) := by
  refine modifyEntity_preservesIds a t _ ?_
  intro e
  cases h : e.inner <;> simp [h]

theorem applySetHeading_preservesIds (a : Arena) (t : ℕ) (hd : ℚ) :
    preservesIds a (applySetHeading a t hd) := by
  refine modifyEntity_preservesIds a t _ ?_
  intro e
  cases h : e.inner <;> simp [h]

theorem applyDamage_preservesIds (a : Arena) (t : ℕ) (amt : ℚ) :
    preservesIds a (applyDamage a t amt) := by
  refine modifyEntity_preservesIds a t _ ?_
  intro e
  cases h : e.inner <;> simp [h]

theorem applyHealing_preservesIds (a : Arena) (t : ℕ) (amt : ℚ) :
    preservesIds a (applyHealing a t amt) := by
  refine modifyEntity_preservesIds a t _ ?_
  intro e
  cases h : e.inner <;> simp [h]

theorem setStatusFlag_preservesIds (a : Arena) (t : ℕ) (fl : StatusFlags) (v : Bool) :
    preservesIds a (setStatusFlag a t fl v) := by
  refine modifyEntity_preservesIds a t _ ?_
  intro e
  cases h : e.inner <;> simp [h]

theorem updateSpatial_preservesIds (a : Arena) (id : ℕ) :
    preservesIds a (a.updateSpatial id) := by
  unfold Arena.updateSpatial
  cases a.get id <;> exact ⟨rfl, rfl⟩

theorem foldl_preservesIds {β : Type} (g : Arena → β → Arena)
    (h : ∀ a x, preservesIds a (g a x)) :
    ∀ (l : List β) (a : Arena), preservesIds a (l.foldl g a) := by
  intro l
  induction l with
  | nil => intro a; exact preservesIds_refl a
  | cons x xs ih =>
      intro a
      exact preservesIds_trans (h a x) (ih (g a x))

theorem integratePhysics_preservesIds (dt : ℚ) (a : Arena) :
    preservesIds a (integratePhysics dt a) := by
  unfold integratePhysics
  refine preservesIds_trans (b := { a with entities := a.entities.map (integrateEntity dt) }) ?_ ?_
  · constructor
    · show (a.entities.map _).map Entity.id = _
      rw [List.map_map]
      refine List.map_congr_left ?_
      intro e _
      cases h : e.inner <;> simp [integrateEntity, h]
    · rfl
  · exact foldl_preservesIds _ (fun a id => updateSpatial_preservesIds a id) _ _

theorem physicsResolve_preservesIds (dt : ℚ) (outs : List OutputEnvelope) (a : Arena) :
    preservesIds a (physicsResolve dt outs a) := by
  unfold physicsResolve
  refine preservesIds_trans (foldl_preservesIds _ ?_ outs a) (integratePhysics_preservesIds dt _)
  intro a env
  match env.output with
  | .command (.setVelocity t v) => exact applySetVelocity_preservesIds a t v
  | .command (.setHeading t hd) => exact applySetHeading_preservesIds a t hd
  | .command (.fireWeapon _ _ _) => exact preservesIds_refl a
  | .command (.spawnProjectile _ _ _) => exact preservesIds_refl a
  | .modifier _ => exact preservesIds_refl a
  | .event _ => exact preservesIds_refl a

theorem combatResolve_preservesIds (outs : List OutputEnvelope) (a : Arena) :
    preservesIds a (combatResolve outs a) := by
  unfold combatResolve
  refine foldl_preservesIds _ ?_ outs a
  intro a env
  match env.output with
  | .modifier (.applyDamage t amt) => exact applyDamage_preservesIds a t amt
  | .modifier (.applyHealing t amt) => exact applyHealing_preservesIds a t amt
  | .modifier (.setStatusFlag t fl v) => exact setStatusFlag_preservesIds a t fl v
  | .modifier (.modifyStat _ _ _) => exact preservesIds_refl a
  | .command _ => exact preservesIds_refl a
  | .event _ => exact preservesIds_refl a

/-- C10 (confirmed).  One Simulation::step with the default resolver set
(Physics, Combat, Event) never creates or removes entities, whatever the
arena state, the registered plugins and the outputs they emit: the list of
entity ids of the current arena (hence the set of ids) is unchanged, and
the tick advances by exactly one. -/
theorem step_preserves_entity_ids (traceHash : ℕ → ℕ → ℕ → ℕ → ℕ) (sim : Simulation) :
    (sim.step traceHash).current.entities.map Entity.id =
      sim.current.entities.map Entity.id ∧
    (sim.step traceHash).current.tick = sim.current.tick + 1 := by
  unfold Simulation.step
  have h1 := physicsResolve_preservesIds FIXED_DT
    ((executePluginsParallel traceHash sim.masterSeed sim.plugins sim.current
        sim.current.tick).filter (fun o => o.output.kind = OutputKind.command))
    sim.current
  have h2 := combatResolve_preservesIds
    ((executePluginsParallel traceHash sim.masterSeed sim.plugins sim.current
        sim.current.tick).filter (fun o => o.output.kind = OutputKind.modifier))
    (physicsResolve FIXED_DT
      ((executePluginsParallel traceHash sim.masterSeed sim.plugins sim.current
          sim.current.tick).filter (fun o => o.output.kind = OutputKind.command))
      sim.current)
  have h3 := preservesIds_trans h1 h2
  exact ⟨h3.1, by simp [Arena.advanceTick, h3.2]⟩

/-- WorldView::get_combat for a plugin that declares Combat (world_view.rs
extract_combat): ships and squadrons have combat state. -/
def viewGetCombat (arena : Arena) (id : ℕ) : Option CombatState :=
  match arena.get id with
  | none => none
  | some e =>
      match e.inner with
      | .ship c => some c.combat
      | .squadron c => some c.combat
      | .platform _ => none
      | .projectile _ => none

/-- WorldView::get_sensor for a plugin that declares Sensor (world_view.rs
extract_sensor): ships and platforms have sensor state. -/
def viewGetSensor (arena : Arena) (id : ℕ) : Option SensorState :=
  match arena.get id with
  | none => none
  | some e =>
      match e.inner with
      | .ship c => some c.sensor
      | .platform c => some c.sensor
      | .squadron _ => none
      | .projectile _ => none

/-- WeaponPlugin::run (plugins/weapon.rs): for each ready weapon, if the
track table is non-empty, emit a FireWeapon command at the first track's
target.  Note that the output is a Command, not an Event. -/
def weaponPluginRun (ctx : PluginContext) (view : Arena) : List Output :=
  match viewGetCombat view ctx.entityId with
  | none => []
  | some combat =>
      match viewGetSensor view ctx.entityId with
      | none => []
      | some sensor =>
          if sensor.trackTable.isEmpty then []
          else
            combat.weapons.foldl (fun outputs weapon =>
              if ¬ weapon.isReady then outputs
              else
                match sensor.trackTable.head? with
                | some track =>
                    outputs ++
                      [Output.command (.fireWeapon ctx.entityId track.targetId weapon.slot)]
                | none => outputs) []

/-- The default weapon plugin (id weapon). -/
def weaponPlugin : Plugin :=
  ⟨['w', 'e', 'a', 'p', 'o', 'n'], weaponPluginRun⟩

/-- The attacker of spec scenario 5: a ship at the origin with one ready
weapon (slot 0, cooldown 0, operational) and one FireControl track naming
entity 1. -/
def attackerShip : ShipComponents :=
  { defaultShip with
      combat := { defaultShip.combat with weapons := [⟨0, 0, 1, .missile, true⟩] }
      sensor := { defaultShip.sensor with
        trackTable := [⟨1, ⟨5000, 0⟩, none, .fireControl, 0, 0⟩] } }

/-- The target ship at (5000, 0). -/
def targetShip : ShipComponents :=
  { defaultShip with transform := ⟨⟨5000, 0⟩, 0⟩ }

/-- The two-ship arena of spec scenario 5. -/
def combatScenarioArena : Arena :=
  ⟨2, [⟨0, .ship, .ship attackerShip⟩, ⟨1, .ship, .ship targetShip⟩],
    ⟨[(0, ⟨0, 0⟩), (1, ⟨5000, 0⟩)]⟩, 0, 0⟩

/-- Registry with only the default weapon plugin registered for ships. -/
def weaponOnlyRegistry : PluginRegistry := fun tag =>
  match tag with
  | .ship => [weaponPlugin]
  | _ => []

/-- The simulation of spec scenario 5 (default resolvers Physics, Combat,
Event; master seed 42). -/
def combatScenarioSim : Simulation :=
  ⟨combatScenarioArena, combatScenarioArena, weaponOnlyRegistry, 42, []⟩

/-- C8 counterexample: after one step of the two-ship scenario the event
log holds no WeaponFired event at all (the weapon plugin emits a FireWeapon
command, which no resolver converts into an event), so the count of
WeaponFired events is 0, not 1 as claimed. -/
theorem step_weaponFired_count_counterexample :
    (combatScenarioSim.step zeroHash).eventLog = [] ∧
    ((combatScenarioSim.step zeroHash).eventLog.filter (fun env =>
        match env.output with
        | .event (.weaponFired _ _) => true
        | _ => false)).length ≠ 1 := by
  constructor
  · decide
  · decide

/-- C8 (corrected, amended part).  In the two-ship scenario the plugin
phase emits exactly one FireWeapon command envelope (attacker 0, target 1,
slot 0); the command is dropped by the resolvers, the event log stays
empty, and the attacker's weapon state - its cooldown in particular - is
unchanged after the step. -/
theorem step_fireWeapon_dropped :
    (pluginPhaseOutputs zeroHash 42 weaponOnlyRegistry combatScenarioArena 0).map
        OutputEnvelope.output = [Output.command (.fireWeapon 0 1 0)] ∧
    (combatScenarioSim.step zeroHash).eventLog = [] ∧
    (((combatScenarioSim.step zeroHash).current.get 0).bind Entity.asShip).map
        (fun c => c.combat.weapons) = some [⟨0, 0, 1, .missile, true⟩] := by
  refine ⟨by decide, by decide, ?_⟩
  decide

end Tidebreak

namespace Murk

/-- Statistics for one scalar field (stats.rs ScalarStats).  f32 values are
idealised as exact rationals; the min/max fields live in WithTop/WithBot so
that the infinities of ScalarStats::empty are represented exactly. -/
@[ext]
structure ScalarStats where
  mean : ℚ
  variance : ℚ
  min : WithTop ℚ
  max : WithBot ℚ
  sampleCount : ℕ
  deriving DecidableEq, Repr

namespace ScalarStats

/-- ScalarStats::from_value. -/
def fromValue (v : ℚ) : ScalarStats :=
  ⟨v, 0, (v : WithTop ℚ), (v : WithBot ℚ), 1⟩

/-- ScalarStats::empty: mean 0, variance 0, min +inf, max -inf, count 0. -/
def emptyStats : ScalarStats := ⟨0, 0, ⊤, ⊥, 0⟩

/-- ScalarStats::merge: parallel (Welford) combination; operands with zero
sample count are returned unchanged. -/
def merge (a b : ScalarStats) : ScalarStats :=
  if a.sampleCount = 0 then b
  else if b.sampleCount = 0 then a
  else
    let nA : ℚ := a.sampleCount
    let nB : ℚ := b.sampleCount
    let nTotal := nA + nB
    let delta := b.mean - a.mean
    let mean := a.mean + delta * (nB / nTotal)
    let variance :=
      (a.variance * nA + b.variance * nB + delta * delta * nA * nB / nTotal) / nTotal
    ⟨mean, variance, Min.min a.min b.min, Max.max a.max b.max,
      a.sampleCount + b.sampleCount⟩

/-- The statistics of a sample list: fold merge over from_value starting
from empty (the shape of ScalarStats::merge_many over singleton stats). -/
def statsOf (l : List ℚ) : ScalarStats :=
  l.foldl (fun acc x => merge acc (fromValue x)) emptyStats

theorem merge_zero_left {a : ScalarStats} (ha : a.sampleCount = 0) (b : ScalarStats) :
    merge a b = b := by
  unfold merge
  rw [if_pos ha]

theorem merge_zero_right {a b : ScalarStats} (ha : a.sampleCount ≠ 0)
    (hb : b.sampleCount = 0) : merge a b = a := by
  unfold merge
  rw [if_neg ha, if_pos hb]

theorem merge_pos {a b : ScalarStats} (ha : a.sampleCount ≠ 0) (hb : b.sampleCount ≠ 0) :
    merge a b =
      ⟨a.mean + (b.mean - a.mean) * ((b.sampleCount : ℚ) /
          ((a.sampleCount : ℚ) + (b.sampleCount : ℚ))),
        (a.variance * (a.sampleCount : ℚ) + b.variance * (b.sampleCount : ℚ) +
            (b.mean - a.mean) * (b.mean - a.mean) * (a.sampleCount : ℚ) *
              (b.sampleCount : ℚ) / ((a.sampleCount : ℚ) + (b.sampleCount : ℚ))) /
          ((a.sampleCount : ℚ) + (b.sampleCount : ℚ)),
        Min.min a.min b.min, Max.max a.max b.max, a.sampleCount + b.sampleCount⟩ := by
  unfold merge
  rw [if_neg ha, if_neg hb]

theorem merge_sampleCount (a b : ScalarStats) :
    (merge a b).sampleCount = a.sampleCount + b.sampleCount := by
  by_cases ha : a.sampleCount = 0
  · rw [merge_zero_left ha, ha, Nat.zero_add]
  by_cases hb : b.sampleCount = 0
  · rw [merge_zero_right ha hb, hb, Nat.add_zero]
  rw [merge_pos ha hb]

theorem merge_comm_pos {a b : ScalarStats} (ha : a.sampleCount ≠ 0)
    (hb : b.sampleCount ≠ 0) : merge a b = merge b a := by
  have hA : ((a.sampleCount : ℚ)) ≠ 0 := Nat.cast_ne_zero.mpr ha
  have hB : ((b.sampleCount : ℚ)) ≠ 0 := Nat.cast_ne_zero.mpr hb
  have hAB : (a.sampleCount : ℚ) + (b.sampleCount : ℚ) ≠ 0 := by positivity
  rw [merge_pos ha hb, merge_pos hb ha]
  ext
  · show a.mean + _ = b.mean + _
    field_simp
    ring
  · show (_ : ℚ) = _
    field_simp
    ring
  · exact min_comm a.min b.min
  · exact max_comm a.max b.max
  · exact Nat.add_comm _ _

theorem merge_assoc (a b c : ScalarStats) :
    merge (merge a b) c = merge a (merge b c) := by
  by_cases ha : a.sampleCount = 0
  · rw [merge_zero_left ha, merge_zero_left ha]
  by_cases hb : b.sampleCount = 0
  · rw [merge_zero_right ha hb, merge_zero_left hb]
  by_cases hc : c.sampleCount = 0
  · have hab : (merge a b).sampleCount ≠ 0 := by
      rw [merge_sampleCount]
      exact fun h => ha (Nat.eq_zero_of_add_eq_zero_right h)
    rw [merge_zero_right hab hc, merge_zero_right hb hc]
  have hab : (merge a b).sampleCount ≠ 0 := by
    rw [merge_sampleCount]
    exact fun h => ha (Nat.eq_zero_of_add_eq_zero_right h)
  have hbc : (merge b c).sampleCount ≠ 0 := by
    rw [merge_sampleCount]
    exact fun h => hb (Nat.eq_zero_of_add_eq_zero_right h)
  have hA : ((a.sampleCount : ℚ)) ≠ 0 := Nat.cast_ne_zero.mpr ha
  have hB : ((b.sampleCount : ℚ)) ≠ 0 := Nat.cast_ne_zero.mpr hb
  have hC : ((c.sampleCount : ℚ)) ≠ 0 := Nat.cast_ne_zero.mpr hc
  have hAB : (a.sampleCount : ℚ) + (b.sampleCount : ℚ) ≠ 0 := by positivity
  have hBC : (b.sampleCount : ℚ) + (c.sampleCount : ℚ) ≠ 0 := by positivity
  have hABC : (a.sampleCount : ℚ) + (b.sampleCount : ℚ) + (c.sampleCount : ℚ) ≠ 0 := by
    positivity
  rw [merge_pos hab hc, merge_pos ha hbc, merge_pos ha hb, merge_pos hb hc]
  ext
  · dsimp only
    push_cast
    field_simp
    ring
  · dsimp only
    push_cast
    field_simp
    ring
  · exact min_assoc a.min b.min c.min
  · exact max_assoc a.max b.max c.max
  · exact Nat.add_assoc _ _ _

theorem statsOf_sampleCount (l : List ℚ) : (statsOf l).sampleCount = l.length := by
  suffices h : ∀ (l : List ℚ) (s : ScalarStats),
      (l.foldl (fun acc x => merge acc (fromValue x)) s).sampleCount
        = s.sampleCount + l.length by
    have := h l emptyStats
    simpa [statsOf, emptyStats] using this
  intro l
  induction l with
  | nil => intro s; simp
  | cons x xs ih =>
      intro s
      rw [List.foldl_cons, ih, merge_sampleCount]
      simp [fromValue]
      ring

theorem merge_statsOf_empty (A : List ℚ) : merge (statsOf A) emptyStats = statsOf A := by
  by_cases hA : A = []
  · subst hA
    rw [show statsOf [] = emptyStats from rfl, merge_zero_left rfl]
  · have : (statsOf A).sampleCount ≠ 0 := by
      rw [statsOf_sampleCount]
      simpa using fun h => hA (List.length_eq_zero.mp h)
    exact merge_zero_right this rfl

theorem foldl_merge_comm (B : List ℚ) : ∀ s t : ScalarStats,
    merge s (B.foldl (fun acc x => merge acc (fromValue x)) t)
      = B.foldl (fun acc x => merge acc (fromValue x)) (merge s t) := by
  induction B with
  | nil => intro s t; rfl
  | cons y ys ih =>
      intro s t
      rw [List.foldl_cons, List.foldl_cons, ih, merge_assoc]

/-- C2 (confirmed).  With f32 arithmetic idealised as exact rational
arithmetic, ScalarStats::merge satisfies the partition law: empty operands
are identities, the merge of the stats of two sample lists equals
(componentwise, as a structure equality over mean, variance, min, max and
sample count) the stats of their concatenation, and the stats of a list
depend only on its multiset of samples, so the law holds for any partition
of a finite multiset. -/
theorem scalarStats_merge_partition :
    (∀ s : ScalarStats, merge emptyStats s = s) ∧
    (∀ A : List ℚ, merge (statsOf A) emptyStats = statsOf A) ∧
    (∀ A B : List ℚ, merge (statsOf A) (statsOf B) = statsOf (A ++ B)) ∧
    (∀ A B : List ℚ, A.Perm B → statsOf A = statsOf B) := by
  refine ⟨fun s => merge_zero_left rfl s, merge_statsOf_empty, ?_, ?_⟩
  · intro A B
    have h := foldl_merge_comm B (statsOf A) emptyStats
    rw [merge_statsOf_empty] at h
    refine h.trans ?_
    show _ = statsOf (A ++ B)
    unfold statsOf
    rw [List.foldl_append]
  · intro A B hperm
    haveI : RightCommutative (fun acc (x : ℚ) => merge acc (fromValue x)) := by
      constructor
      intro s x y
      have h1 : (fromValue x).sampleCount ≠ 0 := one_ne_zero
      have h2 : (fromValue y).sampleCount ≠ 0 := one_ne_zero
      rw [merge_assoc, merge_assoc, merge_comm_pos h1 h2]
    unfold statsOf
    exact hperm.foldl_eq emptyStats

/-- C2 witness instance: the partition [10, 20] / [30] of [10, 20, 30] and
the transposition of [1, 2]. -/
theorem scalarStats_merge_partition_witness :
    (merge (statsOf [10, 20]) (statsOf [30]) = statsOf ([10, 20] ++ [30])) ∧
    (([1, 2] : List ℚ).Perm [2, 1] ∧ statsOf [1, 2] = statsOf [2, 1]) :=
  ⟨scalarStats_merge_partition.2.2.1 [10, 20] [30],
    List.Perm.swap 2 1 [],
    scalarStats_merge_partition.2.2.2 [1, 2] [2, 1] (List.Perm.swap 2 1 [])⟩

end ScalarStats

/-- Three-dimensional vector (glam::Vec3), components idealised as exact
rationals. -/
structure Vec3 where
  x : ℚ
  y : ℚ
  z : ℚ
  deriving DecidableEq, Repr

namespace Vec3

/-- Componentwise addition. -/
def add (a b : Vec3) : Vec3 := ⟨a.x + b.x, a.y + b.y, a.z + b.z⟩

/-- Componentwise subtraction. -/
def sub (a b : Vec3) : Vec3 := ⟨a.x - b.x, a.y - b.y, a.z - b.z⟩

/-- Scalar multiplication. -/
def scale (a : Vec3) (c : ℚ) : Vec3 := ⟨a.x * c, a.y * c, a.z * c⟩

/-- Dot product. -/
def dot (a b : Vec3) : ℚ := a.x * b.x + a.y * b.y + a.z * b.z

/-- Squared euclidean distance (Vec3::distance_squared). -/
def distanceSquared (a b : Vec3) : ℚ :=
  (a.x - b.x) * (a.x - b.x) + (a.y - b.y) * (a.y - b.y) + (a.z - b.z) * (a.z - b.z)

end Vec3

/-- f32::clamp for finite rational arguments. -/
def rclamp (x lo hi : ℚ) : ℚ := min (max x lo) hi

/-- Axis-aligned bounding box (lib.rs Bounds). -/
structure Bounds3 where
  min : Vec3
  max : Vec3
  deriving DecidableEq, Repr

namespace Bounds3

/-- Bounds::new: a box of the given dimensions centred at the origin. -/
def ofSize (width height depth : ℚ) : Bounds3 :=
  ⟨⟨-(width / 2), -(height / 2), -(depth / 2)⟩, ⟨width / 2, height / 2, depth / 2⟩⟩

/-- Bounds::center. -/
def center (b : Bounds3) : Vec3 :=
  ⟨(b.min.x + b.max.x) * (1 / 2), (b.min.y + b.max.y) * (1 / 2),
    (b.min.z + b.max.z) * (1 / 2)⟩

/-- Bounds::size. -/
def size (b : Bounds3) : Vec3 := b.max.sub b.min

/-- Bounds::contains - all comparisons inclusive. -/
def contains (b : Bounds3) (p : Vec3) : Bool :=
  decide (b.min.x ≤ p.x) && decide (p.x ≤ b.max.x) &&
  decide (b.min.y ≤ p.y) && decide (p.y ≤ b.max.y) &&
  decide (b.min.z ≤ p.z) && decide (p.z ≤ b.max.z)

/-- Bounds::intersects_sphere: clamp the centre into the box and compare
squared distances. -/
def intersectsSphere (b : Bounds3) (c : Vec3) (radius : ℚ) : Bool :=
  let closest : Vec3 :=
    ⟨rclamp c.x b.min.x b.max.x, rclamp c.y b.min.y b.max.y, rclamp c.z b.min.z b.max.z⟩
  decide (Vec3.distanceSquared c closest ≤ radius * radius)

/-- Bounds::is_fully_inside_sphere: all eight corners within the radius. -/
def isFullyInsideSphere (b : Bounds3) (c : Vec3) (radius : ℚ) : Bool :=
  let r2 := radius * radius
  let corners : List Vec3 :=
    [⟨b.min.x, b.min.y, b.min.z⟩, ⟨b.max.x, b.min.y, b.min.z⟩,
     ⟨b.min.x, b.max.y, b.min.z⟩, ⟨b.max.x, b.max.y, b.min.z⟩,
     ⟨b.min.x, b.min.y, b.max.z⟩, ⟨b.max.x, b.min.y, b.max.z⟩,
     ⟨b.min.x, b.max.y, b.max.z⟩, ⟨b.max.x, b.max.y, b.max.z⟩]
  corners.all (fun p => decide (Vec3.distanceSquared c p ≤ r2))

/-- Bounds::octant_index: bit 0 = +x, bit 1 = +y, bit 2 = +z. -/
def octantIndex (b : Bounds3) (p : Vec3) : ℕ :=
  let c := b.center
  (if c.x ≤ p.x then 1 else 0) + (if c.y ≤ p.y then 2 else 0) +
    (if c.z ≤ p.z then 4 else 0)

/-- Bounds::child_bounds for one octant. -/
def childBounds (b : Bounds3) (octant : ℕ) : Bounds3 :=
  let c := b.center
  let lo : Vec3 :=
    ⟨if octant % 2 = 0 then b.min.x else c.x,
      if octant / 2 % 2 = 0 then b.min.y else c.y,
      if octant / 4 % 2 = 0 then b.min.z else c.z⟩
  let hi : Vec3 :=
    ⟨if octant % 2 = 0 then c.x else b.max.x,
      if octant / 2 % 2 = 0 then c.y else b.max.y,
      if octant / 4 % 2 = 0 then c.z else b.max.z⟩
  ⟨lo, hi⟩

theorem octantIndex_lt (b : Bounds3) (p : Vec3) : b.octantIndex p < 8 := by
  unfold octantIndex
  dsimp only
  split <;> split <;> split <;> simp

end Bounds3

/-- The twelve scalar field channels (field.rs Field), in declared order. -/
inductive Field where
  | occupancy | material | integrity | temperature | smoke | noise
  | signal | currentX | currentY | depth | salinity | sonarReturn
  deriving DecidableEq, Repr

namespace Field

/-- Field::index - the stable index in [0, 12). -/
def index : Field → ℕ
  | .occupancy => 0
  | .material => 1
  | .integrity => 2
  | .temperature => 3
  | .smoke => 4
  | .noise => 5
  | .signal => 6
  | .currentX => 7
  | .currentY => 8
  | .depth => 9
  | .salinity => 10
  | .sonarReturn => 11

/-- Field::all in index order. -/
def all : List Field :=
  [.occupancy, .material, .integrity, .temperature, .smoke, .noise,
   .signal, .currentX, .currentY, .depth, .salinity, .sonarReturn]

end Field

/-- Raw field values of a leaf (field.rs FieldValues, an [f32; 12]); one
rational per channel, FieldValues::new() is all zeros. -/
structure FieldValues where
  occupancy : ℚ
  material : ℚ
  integrity : ℚ
  temperature : ℚ
  smoke : ℚ
  noise : ℚ
  signal : ℚ
  currentX : ℚ
  currentY : ℚ
  depth : ℚ
  salinity : ℚ
  sonarReturn : ℚ
  deriving DecidableEq, Repr

namespace FieldValues

/-- FieldValues::new - all entries default (zero). -/
def new : FieldValues := ⟨0, 0, 0, 0, 0, 0, 0, 0, 0, 0, 0, 0⟩

/-- FieldValues::get. -/
def get (v : FieldValues) : Field → ℚ
  | .occupancy => v.occupancy
  | .material => v.material
  | .integrity => v.integrity
  | .temperature => v.temperature
  | .smoke => v.smoke
  | .noise => v.noise
  | .signal => v.signal
  | .currentX => v.currentX
  | .currentY => v.currentY
  | .depth => v.depth
  | .salinity => v.salinity
  | .sonarReturn => v.sonarReturn

/-- FieldValues::set. -/
def set (v : FieldValues) (f : Field) (x : ℚ) : FieldValues :=
  match f with
  | .occupancy => { v with occupancy := x }
  | .material => { v with material := x }
  | .integrity => { v with integrity := x }
  | .temperature => { v with temperature := x }
  | .smoke => { v with smoke := x }
  | .noise => { v with noise := x }
  | .signal => { v with signal := x }
  | .currentX => { v with currentX := x }
  | .currentY => { v with currentY := x }
  | .depth => { v with depth := x }
  | .salinity => { v with salinity := x }
  | .sonarReturn => { v with sonarReturn := x }

theorem get_set_self (v : FieldValues) (f : Field) (x : ℚ) : (v.set f x).get f = x := by
  cases f <;> rfl

theorem get_set_other (v : FieldValues) (f g : Field) (x : ℚ) (h : g ≠ f) :
    (v.set f x).get g = v.get g := by
  cases f <;> cases g <;> first
    | rfl
    | exact absurd rfl h

end FieldValues

/-- Rust `as u8` cast of a finite float: truncate toward zero and saturate
into [0, 255]. -/
def toU8 (x : ℚ) : ℕ :=
  if x ≤ 0 then 0 else Nat.min 255 x.floor.toNat

/-- Material statistics (stats.rs MaterialStats); the fixed-size
distribution array is a four-element list. -/
structure MaterialStats where
  mode : ℕ
  modeCount : ℕ
  sampleCount : ℕ
  distribution : List (ℕ × ℕ)
  deriving DecidableEq, Repr

namespace MaterialStats

/-- MaterialStats::from_value. -/
def fromValue (material : ℕ) : MaterialStats :=
  ⟨material, 1, 1, [(material, 1), (0, 0), (0, 0), (0, 0)]⟩

/-- MaterialStats::empty (the derived Default). -/
def emptyStats : MaterialStats := ⟨0, 0, 0, []⟩

end MaterialStats

/-- Complete statistics for all fields (stats.rs FieldStats). -/
structure FieldStats where
  occupancy : ScalarStats
  material : ScalarStats
  integrity : ScalarStats
  temperature : ScalarStats
  smoke : ScalarStats
  noise : ScalarStats
  signal : ScalarStats
  currentX : ScalarStats
  currentY : ScalarStats
  depth : ScalarStats
  salinity : ScalarStats
  sonarReturn : ScalarStats
  materialStats : MaterialStats
  deriving DecidableEq, Repr

namespace FieldStats

/-- FieldStats scalar lookup (FieldStats::get). -/
def get (s : FieldStats) : Field → ScalarStats
  | .occupancy => s.occupancy
  | .material => s.material
  | .integrity => s.integrity
  | .temperature => s.temperature
  | .smoke => s.smoke
  | .noise => s.noise
  | .signal => s.signal
  | .currentX => s.currentX
  | .currentY => s.currentY
  | .depth => s.depth
  | .salinity => s.salinity
  | .sonarReturn => s.sonarReturn

/-- FieldStats::empty. -/
def emptyStats : FieldStats :=
  ⟨.emptyStats, .emptyStats, .emptyStats, .emptyStats, .emptyStats, .emptyStats,
    .emptyStats, .emptyStats, .emptyStats, .emptyStats, .emptyStats, .emptyStats,
    MaterialStats.emptyStats⟩

/-- FieldStats::from_values. -/
def fromValues (v : FieldValues) : FieldStats :=
  ⟨.fromValue v.occupancy, .fromValue v.material, .fromValue v.integrity,
    .fromValue v.temperature, .fromValue v.smoke, .fromValue v.noise,
    .fromValue v.signal, .fromValue v.currentX, .fromValue v.currentY,
    .fromValue v.depth, .fromValue v.salinity, .fromValue v.sonarReturn,
    MaterialStats.fromValue (toU8 v.material)⟩

/-- FieldStats::merge: merge each scalar; keep the material mode with the
larger count, summing sample counts. -/
def merge (a b : FieldStats) : FieldStats :=
  let material :=
    if b.materialStats.modeCount ≤ a.materialStats.modeCount then
      MaterialStats.mk a.materialStats.mode a.materialStats.modeCount
        (a.materialStats.sampleCount + b.materialStats.sampleCount)
        a.materialStats.distribution
    else
      MaterialStats.mk b.materialStats.mode b.materialStats.modeCount
        (a.materialStats.sampleCount + b.materialStats.sampleCount)
        b.materialStats.distribution
  ⟨.merge a.occupancy b.occupancy, .merge a.material b.material,
    .merge a.integrity b.integrity, .merge a.temperature b.temperature,
    .merge a.smoke b.smoke, .merge a.noise b.noise, .merge a.signal b.signal,
    .merge a.currentX b.currentX, .merge a.currentY b.currentY,
    .merge a.depth b.depth, .merge a.salinity b.salinity,
    .merge a.sonarReturn b.sonarReturn, material⟩

/-- FieldStats::merge_many. -/
def mergeMany (stats : List FieldStats) : FieldStats :=
  stats.foldl (fun acc s => merge acc s) emptyStats

/-- FieldStats::is_uniform: every scalar variance below the threshold. -/
def isUniform (s : FieldStats) (threshold : ℚ) : Bool :=
  Field.all.all (fun f => decide ((s.get f).variance < threshold))

end FieldStats

/-- Directions for neighbour lookup (octree.rs Direction). -/
inductive Direction where
  | posX | negX | posY | negY | posZ | negZ
  deriving DecidableEq, Repr

namespace Direction

/-- Direction::offset. -/
def offset : Direction → Vec3
  | .posX => ⟨1, 0, 0⟩
  | .negX => ⟨-1, 0, 0⟩
  | .posY => ⟨0, 1, 0⟩
  | .negY => ⟨0, -1, 0⟩
  | .posZ => ⟨0, 0, 1⟩
  | .negZ => ⟨0, 0, -1⟩

/-- Direction::xy_directions. -/
def xyDirections : List Direction := [.posX, .negX, .posY, .negY]

end Direction

/-- An octree node (node.rs OctreeNode with its NodeState inlined); the
eight optional children of an internal node are explicit fields. -/
inductive ONode where
  | empty (bounds : Bounds3) (depth : ℕ)
  | leaf (bounds : Bounds3) (depth : ℕ) (values : FieldValues)
  | internal (bounds : Bounds3) (depth : ℕ) (stats : FieldStats)
      (c0 c1 c2 c3 c4 c5 c6 c7 : Option ONode)

namespace ONode

/-- The node's bounds field. -/
def boundsOf : ONode → Bounds3
  | .empty b _ => b
  | .leaf b _ _ => b
  | .internal b _ _ _ _ _ _ _ _ _ _ => b

/-- The node's depth field. -/
def depthOf : ONode → ℕ
  | .empty _ d => d
  | .leaf _ d _ => d
  | .internal _ d _ _ _ _ _ _ _ _ _ => d

mutual

/-- Height of the tree (0 for empty/leaf); used as a termination measure. -/
def height : ONode → ℕ
  | .empty _ _ => 0
  | .leaf _ _ _ => 0
  | .internal _ _ _ c0 c1 c2 c3 c4 c5 c6 c7 =>
      1 + max (heightO c0) (max (heightO c1) (max (heightO c2) (max (heightO c3)
        (max (heightO c4) (max (heightO c5) (max (heightO c6) (heightO c7)))))))

/-- Height of an optional child. -/
def heightO : Option ONode → ℕ
  | none => 0
  | some t => height t

end

/-- children[i] of an internal node. -/
def childAt : ONode → ℕ → Option ONode
  | .internal _ _ _ c0 c1 c2 c3 c4 c5 c6 c7, i =>
      match i with
      | 0 => c0
      | 1 => c1
      | 2 => c2
      | 3 => c3
      | 4 => c4
      | 5 => c5
      | 6 => c6
      | 7 => c7
      | _ => none
  | _, _ => none

/-- children[i] = c on an internal node. -/
def withChild : ONode → ℕ → Option ONode → ONode
  | .internal b d s c0 c1 c2 c3 c4 c5 c6 c7, i, c =>
      match i with
      | 0 => .internal b d s c c1 c2 c3 c4 c5 c6 c7
      | 1 => .internal b d s c0 c c2 c3 c4 c5 c6 c7
      | 2 => .internal b d s c0 c1 c c3 c4 c5 c6 c7
      | 3 => .internal b d s c0 c1 c2 c c4 c5 c6 c7
      | 4 => .internal b d s c0 c1 c2 c3 c c5 c6 c7
      | 5 => .internal b d s c0 c1 c2 c3 c4 c c6 c7
      | 6 => .internal b d s c0 c1 c2 c3 c4 c5 c c7
      | 7 => .internal b d s c0 c1 c2 c3 c4 c5 c6 c
      | _ => .internal b d s c0 c1 c2 c3 c4 c5 c6 c7
  | n, _, _ => n

/-- OctreeNode::stats - computed for leaves, cached for internal nodes. -/
def nodeStats : ONode → Option FieldStats
  | .empty _ _ => none
  | .leaf _ _ v => some (FieldStats.fromValues v)
  | .internal _ _ s _ _ _ _ _ _ _ _ => some s

/-- The stats of the present, non-empty children, in octant order. -/
def childStatsOf (l : List (Option ONode)) : List FieldStats :=
  l.filterMap (fun c => c.bind nodeStats)

/-- The children array of an internal node (empty list otherwise). -/
def childrenOf : ONode → List (Option ONode)
  | .internal _ _ _ c0 c1 c2 c3 c4 c5 c6 c7 => [c0, c1, c2, c3, c4, c5, c6, c7]
  | _ => []

/-- OctreeNode::update_stats. -/
def updateStats : ONode → ONode
  | .internal b d _ c0 c1 c2 c3 c4 c5 c6 c7 =>
      .internal b d (FieldStats.mergeMany (childStatsOf [c0, c1, c2, c3, c4, c5, c6, c7]))
        c0 c1 c2 c3 c4 c5 c6 c7
  | n => n

/-- A leaf built from the per-field means of the statistics (the loop over
stats.scalars in try_merge and in the missing-child branch of
query_point_recursive). -/
def meansValues (s : FieldStats) : FieldValues :=
  ⟨s.occupancy.mean, s.material.mean, s.integrity.mean, s.temperature.mean,
    s.smoke.mean, s.noise.mean, s.signal.mean, s.currentX.mean, s.currentY.mean,
    s.depth.mean, s.salinity.mean, s.sonarReturn.mean⟩

/-- The internal node produced by OctreeNode::split from a node with value
seed v: eight leaf children carrying v at depth d+1. -/
def mkSplit (b : Bounds3) (d : ℕ) (v : FieldValues) : ONode :=
  .internal b d (FieldStats.fromValues v)
    (some (.leaf (b.childBounds 0) (d + 1) v)) (some (.leaf (b.childBounds 1) (d + 1) v))
    (some (.leaf (b.childBounds 2) (d + 1) v)) (some (.leaf (b.childBounds 3) (d + 1) v))
    (some (.leaf (b.childBounds 4) (d + 1) v)) (some (.leaf (b.childBounds 5) (d + 1) v))
    (some (.leaf (b.childBounds 6) (d + 1) v)) (some (.leaf (b.childBounds 7) (d + 1) v))

/-- OctreeNode::split: empty nodes seed default values, leaves seed their
values, internal nodes are unchanged. -/
def splitNode : ONode → ONode
  | .empty b d => mkSplit b d FieldValues.new
  | .leaf b d v => mkSplit b d v
  | n => n

/-- OctreeNode::try_merge: returns the updated node and whether a merge was
performed. -/
def tryMerge (n : ONode) (threshold : ℚ) : ONode × Bool :=
  match n with
  | .internal b d _ c0 c1 c2 c3 c4 c5 c6 c7 =>
      let cs := childStatsOf [c0, c1, c2, c3, c4, c5, c6, c7]
      if cs.isEmpty then (.empty b d, true)
      else
        let s := FieldStats.mergeMany cs
        if s.isUniform threshold then (.leaf b d (meansValues s), true)
        else (.internal b d s c0 c1 c2 c3 c4 c5 c6 c7, false)
  | _ => (n, false)

mutual

/-- Octree::collect_leaves_recursive: (center, values) of every leaf in
depth-first octant order, skipping empty nodes. -/
def collectLeavesRec : ONode → List (Vec3 × FieldValues)
  | .empty _ _ => []
  | .leaf b _ v => [(b.center, v)]
  | .internal _ _ _ c0 c1 c2 c3 c4 c5 c6 c7 =>
      collectLeavesO c0 ++ (collectLeavesO c1 ++ (collectLeavesO c2 ++
        (collectLeavesO c3 ++ (collectLeavesO c4 ++ (collectLeavesO c5 ++
          (collectLeavesO c6 ++ collectLeavesO c7))))))

/-- Leaves of an optional child. -/
def collectLeavesO : Option ONode → List (Vec3 × FieldValues)
  | none => []
  | some t => collectLeavesRec t

end

theorem height_childAt_lt (n c : ONode) (i : ℕ) (h : n.childAt i = some c) :
    height c < height n := by
  cases n with
  | empty b d => simp [childAt] at h
  | leaf b d v => simp [childAt] at h
  | internal b d s c0 c1 c2 c3 c4 c5 c6 c7 =>
      have hle : heightO (some c) ≤
          max (heightO c0) (max (heightO c1) (max (heightO c2) (max (heightO c3)
            (max (heightO c4) (max (heightO c5) (max (heightO c6) (heightO c7))))))) := by
        rcases i with _ | _ | _ | _ | _ | _ | _ | _ | i
        · simp only [childAt] at h
          rw [← h]
          exact le_max_left _ _
        · simp only [childAt] at h
          rw [← h]
          exact le_max_of_le_right (le_max_left _ _)
        · simp only [childAt] at h
          rw [← h]
          exact le_max_of_le_right (le_max_of_le_right (le_max_left _ _))
        · simp only [childAt] at h
          rw [← h]
          exact le_max_of_le_right (le_max_of_le_right (le_max_of_le_right (le_max_left _ _)))
        · simp only [childAt] at h
          rw [← h]
          exact le_max_of_le_right (le_max_of_le_right (le_max_of_le_right
            (le_max_of_le_right (le_max_left _ _))))
        · simp only [childAt] at h
          rw [← h]
          exact le_max_of_le_right (le_max_of_le_right (le_max_of_le_right
            (le_max_of_le_right (le_max_of_le_right (le_max_left _ _)))))
        · simp only [childAt] at h
          rw [← h]
          exact le_max_of_le_right (le_max_of_le_right (le_max_of_le_right
            (le_max_of_le_right (le_max_of_le_right (le_max_of_le_right (le_max_left _ _))))))
        · simp only [childAt] at h
          rw [← h]
          exact le_max_of_le_right (le_max_of_le_right (le_max_of_le_right
            (le_max_of_le_right (le_max_of_le_right (le_max_of_le_right (le_max_right _ _))))))
        · simp only [childAt] at h
          exact absurd h (by simp)
      simp only [heightO] at hle
      simp only [height]
      omega

end ONode

theorem measure_lt {h1 h2 d1 d2 m : ℕ} (hh : h1 < h2) (hd : d1 ≤ m + 1) :
    h1 * (m + 2) + d1 < h2 * (m + 2) + d2 := by
  have s1 : h1 * (m + 2) + d1 < (h1 + 1) * (m + 2) := by
    rw [Nat.succ_mul]
    exact Nat.add_lt_add_left (by omega) _
  exact lt_of_lt_of_le s1
    (le_trans (Nat.mul_le_mul_right _ hh) (Nat.le_add_right _ _))

/-- Result of a point query (query.rs PointResult); the derived Default is
zero values, depth 0, interpolated false. -/
structure PointResult where
  values : FieldValues
  depth : ℕ
  interpolated : Bool
  deriving DecidableEq, Repr

/-- PointResult::default(). -/
def PointResult.default : PointResult := ⟨FieldValues.new, 0, false⟩

/-- Octree configuration (octree.rs OctreeConfig). -/
structure OctreeConfig where
  bounds : Bounds3
  baseResolution : ℚ
  maxDepth : ℕ
  mergeThreshold : ℚ
  splitThreshold : ℚ
  deriving DecidableEq, Repr

/-- The octree wrapper (octree.rs Octree). -/
structure Octree where
  root : ONode
  config : OctreeConfig
  nodeCount : ℕ
  leafCount : ℕ

namespace Octree

/-- Octree::new. -/
def new (config : OctreeConfig) : Octree :=
  ⟨.empty config.bounds 0, config, 1, 0⟩

/-- Octree::query_point_recursive. The fields list of the PointQuery is
unused by the code, so the query is just the position. -/
def queryPointRec (n : ONode) (p : Vec3) : PointResult :=
  match n with
  | .empty _ d => ⟨FieldValues.new, d, true⟩
  | .leaf _ d v => ⟨v, d, false⟩
  | .internal b d s c0 c1 c2 c3 c4 c5 c6 c7 =>
      let node := ONode.internal b d s c0 c1 c2 c3 c4 c5 c6 c7
      match h : node.childAt (b.octantIndex p) with
      | some child => queryPointRec child p
      | none => ⟨ONode.meansValues s, d, true⟩
termination_by ONode.height n
decreasing_by
  exact ONode.height_childAt_lt _ _ _ h

/-- Octree::query_point. -/
def queryPoint (oct : Octree) (p : Vec3) : PointResult :=
  if oct.config.bounds.contains p then queryPointRec oct.root p
  else PointResult.default

/-- Octree::set_point_recursive, threading (node_count, leaf_count); the
split-then-recurse-on-self steps of the Empty and Leaf arms are unfolded
one level: after a split every child exists, so the self-call lands in the
Internal arm's descent into children[octant], which is the fresh leaf that
split seeded, followed by update_stats. -/
def setPointRec (p : Vec3) (values : FieldValues) (maxDepth : ℕ) :
    ONode → ℕ → ℕ → ONode × ℕ × ℕ
  | .empty b d, nc, lc =>
      if maxDepth ≤ d then (.leaf b d values, nc, lc + 1)
      else
        let octant := b.octantIndex p
        let child := ONode.leaf (b.childBounds octant) (d + 1) FieldValues.new
        let r := setPointRec p values maxDepth child (nc + 8) (lc + 8)
        (((ONode.mkSplit b d FieldValues.new).withChild octant (some r.1)).updateStats, r.2)
  | .leaf b d w, nc, lc =>
      if maxDepth ≤ d then (.leaf b d values, nc, lc)
      else
        let octant := b.octantIndex p
        let child := ONode.leaf (b.childBounds octant) (d + 1) w
        let r := setPointRec p values maxDepth child (nc + 8) (lc + 7)
        (((ONode.mkSplit b d w).withChild octant (some r.1)).updateStats, r.2)
  | .internal b d s c0 c1 c2 c3 c4 c5 c6 c7, nc, lc =>
      let node := ONode.internal b d s c0 c1 c2 c3 c4 c5 c6 c7
      let octant := b.octantIndex p
      match h : node.childAt octant with
      | some child =>
          let r := setPointRec p values maxDepth child nc lc
          ((node.withChild octant (some r.1)).updateStats, r.2)
      | none =>
          let child := ONode.empty (b.childBounds octant) (d + 1)
          let r := setPointRec p values maxDepth child (nc + 1) lc
          ((node.withChild octant (some r.1)).updateStats, r.2)
termination_by n _ _ =>
  ONode.height n * (maxDepth + 2) + (maxDepth + 1 - ONode.depthOf n)
decreasing_by
  · simp only [ONode.height, ONode.depthOf]
    omega
  · simp only [ONode.height, ONode.depthOf]
    omega
  · exact measure_lt (ONode.height_childAt_lt _ _ _ h) (Nat.sub_le _ _)
  · have hh : ONode.height (ONode.empty (b.childBounds (b.octantIndex p)) (d + 1)) <
        ONode.height (ONode.internal b d s c0 c1 c2 c3 c4 c5 c6 c7) := by
      simp only [ONode.height]
      exact Nat.lt_of_lt_of_le Nat.one_pos (Nat.le_add_right _ _)
    exact measure_lt hh (Nat.sub_le _ _)

/-- Octree::set_point. -/
def setPoint (oct : Octree) (p : Vec3) (values : FieldValues) : Octree :=
  if oct.config.bounds.contains p then
    let r := setPointRec p values oct.config.maxDepth oct.root oct.nodeCount oct.leafCount
    ⟨r.1, oct.config, r.2.1, r.2.2⟩
  else oct

/-- Octree::collect_leaves. -/
def collectLeaves (oct : Octree) : List (Vec3 × FieldValues) :=
  ONode.collectLeavesRec oct.root

/-- Octree::cell_size_at. -/
def cellSizeAt (oct : Octree) (position : Vec3) : ℚ :=
  if oct.config.bounds.contains position then
    let result := oct.queryPoint position
    let worldSize := oct.config.bounds.size.x
    worldSize / 2 ^ result.depth
  else 0

/-- Octree::find_neighbor. -/
def findNeighbor (oct : Octree) (position : Vec3) (direction : Direction) :
    Option FieldValues :=
  let cellSize := oct.cellSizeAt position
  if cellSize = 0 then none
  else
    let neighborPos := position.add (direction.offset.scale cellSize)
    if oct.config.bounds.contains neighborPos then
      some (oct.queryPoint neighborPos).values
    else none

end Octree

/-- NaN-aware model of an f32 value: `some q` is the finite value q, `none`
is NaN. In the stamp code the only NaN source is the division 0/0 (a
zero-length capsule axis); a nonzero numerator with zero denominator never
occurs there, so division by zero is mapped to `none` without loss. -/
abbrev NF := Option ℚ

namespace NF

/-- Addition; NaN propagates. -/
def addF : NF → NF → NF
  | some a, some b => some (a + b)
  | _, _ => none

/-- Subtraction; NaN propagates. -/
def subF : NF → NF → NF
  | some a, some b => some (a - b)
  | _, _ => none

/-- Multiplication of finite values; NaN propagates (0 * NaN is NaN). -/
def mulF : NF → NF → NF
  | some a, some b => some (a * b)
  | _, _ => none

/-- Division; 0/0 (the only zero-denominator case reachable in the stamp
code) is NaN. -/
def divF : NF → NF → NF
  | some a, some b => if b = 0 then none else some (a / b)
  | _, _ => none

/-- f32::sqrt through the supplied sqrt model; negative inputs give NaN. -/
def sqrtF (fsqrt : ℚ → ℚ) : NF → NF
  | some a => if a < 0 then none else some (fsqrt a)
  | none => none

/-- f32::clamp(0, 1); NaN stays NaN. -/
def clamp01F : NF → NF
  | some a => some (rclamp a 0 1)
  | none => none

/-- The comparison a <= b; false when either side is NaN. -/
def leF : NF → NF → Bool
  | some a, some b => decide (a ≤ b)
  | _, _ => false

/-- The comparison a >= b; false when either side is NaN. -/
def geF : NF → NF → Bool
  | some a, some b => decide (b ≤ a)
  | _, _ => false

/-- The comparison 0 < a; false when a is NaN. -/
def posF : NF → Bool
  | some a => decide (0 < a)
  | none => false

end NF

namespace Vec3

/-- Componentwise minimum (glam Vec3::min). -/
def vmin (a b : Vec3) : Vec3 := ⟨min a.x b.x, min a.y b.y, min a.z b.z⟩

/-- Componentwise maximum (glam Vec3::max). -/
def vmax (a b : Vec3) : Vec3 := ⟨max a.x b.x, max a.y b.y, max a.z b.z⟩

/-- Vec3::splat. -/
def splat (c : ℚ) : Vec3 := ⟨c, c, c⟩

end Vec3

/-- Blend operation for a stamp modification (stamp.rs BlendOp). -/
inductive BlendOp where
  | set | add | subtract | multiply | max | min | lerp (factor : ℚ)
  deriving DecidableEq, Repr

/-- BlendOp::apply on finite values. -/
def BlendOp.apply : BlendOp → ℚ → ℚ → ℚ
  | .set, _, value => value
  | .add, current, value => current + value
  | .subtract, current, value => current - value
  | .multiply, current, value => current * value
  | .max, current, value => Max.max current value
  | .min, current, value => Min.min current value
  | .lerp factor, current, value => current + (value - current) * factor

/-- A single field modification (stamp.rs FieldMod). -/
structure FieldMod where
  field : Field
  op : BlendOp
  value : ℚ
  deriving DecidableEq, Repr

/-- Stamp shape (stamp.rs StampShape). -/
inductive StampShape where
  | sphere (center : Vec3) (radius : ℚ)
  | box (bounds : Bounds3)
  | capsule (p0 p1 : Vec3) (radius : ℚ)
  deriving DecidableEq, Repr

namespace StampShape

/-- StampShape::bounds. -/
def shapeBounds : StampShape → Bounds3
  | .sphere c r => ⟨c.sub (Vec3.splat r), c.add (Vec3.splat r)⟩
  | .box b => b
  | .capsule p0 p1 r =>
      ⟨(p0.vmin p1).sub (Vec3.splat r), (p0.vmax p1).add (Vec3.splat r)⟩

/-- The distance from `point` to the closest point of the capsule axis
segment, in the NaN-aware float model: a zero-length axis makes
t = 0/0 = NaN, which then propagates through clamp, the closest point and
the distance. -/
def capsuleDist (fsqrt : ℚ → ℚ) (p0 p1 point : Vec3) : NF :=
  let ab := p1.sub p0
  let ap := point.sub p0
  let t := NF.divF (some (ap.dot ab)) (some (ab.dot ab))
  let tc := NF.clamp01F t
  let cx := NF.addF (some p0.x) (NF.mulF (some ab.x) tc)
  let cy := NF.addF (some p0.y) (NF.mulF (some ab.y) tc)
  let cz := NF.addF (some p0.z) (NF.mulF (some ab.z) tc)
  let dx := NF.subF (some point.x) cx
  let dy := NF.subF (some point.y) cy
  let dz := NF.subF (some point.z) cz
  NF.sqrtF fsqrt (NF.addF (NF.mulF dx dx) (NF.addF (NF.mulF dy dy) (NF.mulF dz dz)))

/-- StampShape::contains. The f32 square root is the supplied model
function fsqrt. -/
def containsPt (fsqrt : ℚ → ℚ) : StampShape → Vec3 → Bool
  | .sphere c r, point =>
      NF.leF (NF.sqrtF fsqrt (some (Vec3.distanceSquared c point))) (some r)
  | .box b, point => b.contains point
  | .capsule p0 p1 r, point => NF.leF (capsuleDist fsqrt p0 p1 point) (some r)

/-- StampShape::intersects with a bounds. -/
def intersects : StampShape → Bounds3 → Bool
  | .sphere c r, bounds => bounds.intersectsSphere c r
  | .box b, bounds =>
      decide (b.min.x ≤ bounds.max.x) && decide (bounds.min.x ≤ b.max.x) &&
      decide (b.min.y ≤ bounds.max.y) && decide (bounds.min.y ≤ b.max.y) &&
      decide (b.min.z ≤ bounds.max.z) && decide (bounds.min.z ≤ b.max.z)
  | .capsule p0 p1 r, bounds =>
      let cb := shapeBounds (.capsule p0 p1 r)
      decide (cb.min.x ≤ bounds.max.x) && decide (bounds.min.x ≤ cb.max.x) &&
      decide (cb.min.y ≤ bounds.max.y) && decide (bounds.min.y ≤ cb.max.y) &&
      decide (cb.min.z ≤ bounds.max.z) && decide (bounds.min.z ≤ cb.max.z)

/-- StampShape::intensity_at. -/
def intensityAt (fsqrt : ℚ → ℚ) (shape : StampShape) (point : Vec3)
    (falloff : Bool) : NF :=
  if falloff = false then
    if containsPt fsqrt shape point then some 1 else some 0
  else
    match shape with
    | .sphere c r =>
        let dist := NF.sqrtF fsqrt (some (Vec3.distanceSquared c point))
        if NF.geF dist (some r) then some 0
        else NF.subF (some 1) (NF.divF dist (some r))
    | .box b => if b.contains point then some 1 else some 0
    | .capsule p0 p1 r =>
        let dist := capsuleDist fsqrt p0 p1 point
        if NF.geF dist (some r) then some 0
        else NF.subF (some 1) (NF.divF dist (some r))

end StampShape

/-- A stamp (stamp.rs Stamp). -/
structure Stamp where
  shape : StampShape
  modifications : List FieldMod
  falloff : Bool
  deriving DecidableEq, Repr

namespace Octree

/-- Octree::should_split_for_stamp. -/
def shouldSplitForStamp (n : ONode) (stamp : Stamp) (config : OctreeConfig) : Bool :=
  let cellFullyCovered :=
    match stamp.shape with
    | .sphere c r => n.boundsOf.isFullyInsideSphere c r
    | .box b =>
        decide (b.min.x ≤ n.boundsOf.min.x) && decide (n.boundsOf.max.x ≤ b.max.x) &&
        decide (b.min.y ≤ n.boundsOf.min.y) && decide (n.boundsOf.max.y ≤ b.max.y) &&
        decide (b.min.z ≤ n.boundsOf.min.z) && decide (n.boundsOf.max.z ≤ b.max.z)
    | .capsule _ _ _ => false
  !cellFullyCovered && decide (config.baseResolution * 2 < n.boundsOf.size.x)

/-- Octree::apply_stamp_to_leaf: sample the intensity at the cell center
and fold the modifications over the leaf values; a NaN intensity fails the
(intensity > 0.0) test, leaving the leaf unchanged. -/
def applyStampToLeaf (fsqrt : ℚ → ℚ) (n : ONode) (stamp : Stamp) : ONode :=
  match n with
  | .leaf b d values =>
      let intensity := StampShape.intensityAt fsqrt stamp.shape b.center stamp.falloff
      match intensity with
      | some q =>
          if 0 < q then
            let newValues := stamp.modifications.foldl (fun vs m =>
              let current := vs.get m.field
              let newValue :=
                if stamp.falloff then
                  let target := m.op.apply current m.value
                  current + (target - current) * q
                else m.op.apply current m.value
              vs.set m.field newValue) values
            .leaf b d newValues
          else n
      | none => n
  | _ => n

/-- The update_stats-then-try_merge tail of the internal arm of
apply_stamp_recursive, with the count bookkeeping. -/
def finishInternal (config : OctreeConfig) (n : ONode) (nc lc : ℕ) :
    ONode × ℕ × ℕ :=
  let n2 := n.updateStats
  let m := n2.tryMerge config.mergeThreshold
  if m.2 then (m.1, nc - 8, lc - 7) else (m.1, nc, lc)

/-- Depth of an optional node (0 for a missing child). -/
def depthO : Option ONode → ℕ
  | none => 0
  | some t => t.depthOf

theorem lt_height_internal (b : Bounds3) (d : ℕ) (s : FieldStats)
    (c0 c1 c2 c3 c4 c5 c6 c7 : Option ONode) :
    ONode.heightO c0 < ONode.height (.internal b d s c0 c1 c2 c3 c4 c5 c6 c7) ∧
    ONode.heightO c1 < ONode.height (.internal b d s c0 c1 c2 c3 c4 c5 c6 c7) ∧
    ONode.heightO c2 < ONode.height (.internal b d s c0 c1 c2 c3 c4 c5 c6 c7) ∧
    ONode.heightO c3 < ONode.height (.internal b d s c0 c1 c2 c3 c4 c5 c6 c7) ∧
    ONode.heightO c4 < ONode.height (.internal b d s c0 c1 c2 c3 c4 c5 c6 c7) ∧
    ONode.heightO c5 < ONode.height (.internal b d s c0 c1 c2 c3 c4 c5 c6 c7) ∧
    ONode.heightO c6 < ONode.height (.internal b d s c0 c1 c2 c3 c4 c5 c6 c7) ∧
    ONode.heightO c7 < ONode.height (.internal b d s c0 c1 c2 c3 c4 c5 c6 c7) := by
  simp only [ONode.height]
  omega

theorem measure2_lt {h1 h2 g1 g2 m : ℕ} (hh : h1 < h2) (hg : g1 ≤ m + 1) :
    h1 * (2 * (m + 2)) + g1 * 2 + 1 < h2 * (2 * (m + 2)) + g2 * 2 := by
  have s1 : h1 * (2 * (m + 2)) + g1 * 2 + 1 < (h1 + 1) * (2 * (m + 2)) := by
    have e : (h1 + 1) * (2 * (m + 2)) = h1 * (2 * (m + 2)) + 2 * (m + 2) := by ring
    rw [e, Nat.add_assoc]
    have hg2 : g1 * 2 + 1 < 2 * (m + 2) := by omega
    exact Nat.add_lt_add_left hg2 _
  refine lt_of_lt_of_le s1 (le_trans (Nat.mul_le_mul_right _ hh) (Nat.le_add_right _ _))

mutual

/-- Octree::apply_stamp_recursive, threading (node_count, leaf_count). The
Leaf arm's split-then-recurse-on-self is unfolded one level: after split the
self-call re-passes the intersection test (same bounds) and lands in the
Internal arm over the eight seeded children; that arm is inlined here with
the eight direct child calls, followed by update_stats / try_merge. -/
def applyStampRec (fsqrt : ℚ → ℚ) (stamp : Stamp) (config : OctreeConfig) :
    ONode → ℕ → ℕ → ONode × ℕ × ℕ
  | .empty b d, nc, lc =>
      if stamp.shape.intersects b = false then (.empty b d, nc, lc)
      else (applyStampToLeaf fsqrt (.leaf b d FieldValues.new) stamp, nc, lc + 1)
  | .leaf b d v, nc, lc =>
      if stamp.shape.intersects b = false then (.leaf b d v, nc, lc)
      else
        if h : d < config.maxDepth ∧
            shouldSplitForStamp (.leaf b d v) stamp config = true then
          let r0 := applyStampRec fsqrt stamp config (.leaf (b.childBounds 0) (d + 1) v) (nc + 8) (lc + 7)
          let r1 := applyStampRec fsqrt stamp config (.leaf (b.childBounds 1) (d + 1) v) r0.2.1 r0.2.2
          let r2 := applyStampRec fsqrt stamp config (.leaf (b.childBounds 2) (d + 1) v) r1.2.1 r1.2.2
          let r3 := applyStampRec fsqrt stamp config (.leaf (b.childBounds 3) (d + 1) v) r2.2.1 r2.2.2
          let r4 := applyStampRec fsqrt stamp config (.leaf (b.childBounds 4) (d + 1) v) r3.2.1 r3.2.2
          let r5 := applyStampRec fsqrt stamp config (.leaf (b.childBounds 5) (d + 1) v) r4.2.1 r4.2.2
          let r6 := applyStampRec fsqrt stamp config (.leaf (b.childBounds 6) (d + 1) v) r5.2.1 r5.2.2
          let r7 := applyStampRec fsqrt stamp config (.leaf (b.childBounds 7) (d + 1) v) r6.2.1 r6.2.2
          finishInternal config
            (ONode.internal b d (FieldStats.fromValues v) (some r0.1) (some r1.1)
              (some r2.1) (some r3.1) (some r4.1) (some r5.1) (some r6.1) (some r7.1))
            r7.2.1 r7.2.2
        else (applyStampToLeaf fsqrt (.leaf b d v) stamp, nc, lc)
  | .internal b d s c0 c1 c2 c3 c4 c5 c6 c7, nc, lc =>
      if stamp.shape.intersects b = false then
        (.internal b d s c0 c1 c2 c3 c4 c5 c6 c7, nc, lc)
      else
        let r0 := applyStampO fsqrt stamp config c0 nc lc
        let r1 := applyStampO fsqrt stamp config c1 r0.2.1 r0.2.2
        let r2 := applyStampO fsqrt stamp config c2 r1.2.1 r1.2.2
        let r3 := applyStampO fsqrt stamp config c3 r2.2.1 r2.2.2
        let r4 := applyStampO fsqrt stamp config c4 r3.2.1 r3.2.2
        let r5 := applyStampO fsqrt stamp config c5 r4.2.1 r4.2.2
        let r6 := applyStampO fsqrt stamp config c6 r5.2.1 r5.2.2
        let r7 := applyStampO fsqrt stamp config c7 r6.2.1 r6.2.2
        finishInternal config
          (ONode.internal b d s r0.1 r1.1 r2.1 r3.1 r4.1 r5.1 r6.1 r7.1)
          r7.2.1 r7.2.2
termination_by n _ _ =>
  ONode.height n * (2 * (config.maxDepth + 2)) +
    (config.maxDepth + 1 - ONode.depthOf n) * 2
decreasing_by
  · simp only [ONode.height, ONode.depthOf]
    omega
  · simp only [ONode.height, ONode.depthOf]
    omega
  · simp only [ONode.height, ONode.depthOf]
    omega
  · simp only [ONode.height, ONode.depthOf]
    omega
  · simp only [ONode.height, ONode.depthOf]
    omega
  · simp only [ONode.height, ONode.depthOf]
    omega
  · simp only [ONode.height, ONode.depthOf]
    omega
  · simp only [ONode.height, ONode.depthOf]
    omega
  · exact measure2_lt (lt_height_internal b d s c0 c1 c2 c3 c4 c5 c6 c7).1 (Nat.sub_le _ _)
  · exact measure2_lt (lt_height_internal b d s c0 c1 c2 c3 c4 c5 c6 c7).2.1 (Nat.sub_le _ _)
  · exact measure2_lt (lt_height_internal b d s c0 c1 c2 c3 c4 c5 c6 c7).2.2.1 (Nat.sub_le _ _)
  · exact measure2_lt (lt_height_internal b d s c0 c1 c2 c3 c4 c5 c6 c7).2.2.2.1 (Nat.sub_le _ _)
  · exact measure2_lt (lt_height_internal b d s c0 c1 c2 c3 c4 c5 c6 c7).2.2.2.2.1 (Nat.sub_le _ _)
  · exact measure2_lt (lt_height_internal b d s c0 c1 c2 c3 c4 c5 c6 c7).2.2.2.2.2.1 (Nat.sub_le _ _)
  · exact measure2_lt (lt_height_internal b d s c0 c1 c2 c3 c4 c5 c6 c7).2.2.2.2.2.2.1 (Nat.sub_le _ _)
  · exact measure2_lt (lt_height_internal b d s c0 c1 c2 c3 c4 c5 c6 c7).2.2.2.2.2.2.2 (Nat.sub_le _ _)

/-- One recursive stamp application to an optional child. -/
def applyStampO (fsqrt : ℚ → ℚ) (stamp : Stamp) (config : OctreeConfig) :
    Option ONode → ℕ → ℕ → Option ONode × ℕ × ℕ
  | none, nc, lc => (none, nc, lc)
  | some t, nc, lc =>
      let r := applyStampRec fsqrt stamp config t nc lc
      (some r.1, r.2.1, r.2.2)
termination_by o _ _ =>
  ONode.heightO o * (2 * (config.maxDepth + 2)) + (config.maxDepth + 1 - depthO o) * 2 + 1
decreasing_by
  · simp only [ONode.heightO, depthO]
    exact Nat.lt_succ_self _

end

/-- Octree::apply_stamp. -/
def applyStamp (fsqrt : ℚ → ℚ) (oct : Octree) (stamp : Stamp) : Octree :=
  let r := applyStampRec fsqrt stamp oct.config oct.root oct.nodeCount oct.leafCount
  ⟨r.1, oct.config, r.2.1, r.2.2⟩

end Octree

/-- Aggregation method (field.rs Aggregation). -/
inductive Aggregation where
  | mean | max | min | mode
  deriving DecidableEq, Repr

/-- Propagation behaviour (field.rs Propagation). -/
inductive Propagation where
  | none
  | diffusion (rate : ℚ)
  | decay (rate : ℚ)
  | diffusionDecay (diffusionRate decayRate : ℚ)
  deriving DecidableEq, Repr

/-- Per-field configuration (field.rs FieldConfig); the range pair is split
into rangeMin / rangeMax. -/
structure FieldConfig where
  field : Field
  rangeMin : ℚ
  rangeMax : ℚ
  aggregation : Aggregation
  propagation : Propagation
  defaultValue : ℚ
  deriving DecidableEq, Repr

namespace FieldConfig

/-- FieldConfig::default_for. -/
def defaultFor : Field → FieldConfig
  | .occupancy => ⟨.occupancy, 0, 1, .max, .none, 0⟩
  | .material => ⟨.material, 0, 255, .mode, .none, 0⟩
  | .integrity => ⟨.integrity, 0, 1, .mean, .none, 1⟩
  | .temperature => ⟨.temperature, 0, 10000, .mean, .diffusion (1 / 20), 293⟩
  | .smoke => ⟨.smoke, 0, 1, .mean, .diffusionDecay (1 / 10) (1 / 50), 0⟩
  | .noise => ⟨.noise, 0, 200, .max, .decay (3 / 10), 0⟩
  | .signal => ⟨.signal, 0, 1, .max, .decay (1 / 10), 0⟩
  | .currentX => ⟨.currentX, -10, 10, .mean, .none, 0⟩
  | .currentY => ⟨.currentY, -10, 10, .mean, .none, 0⟩
  | .depth => ⟨.depth, 0, 10000, .mean, .none, 100⟩
  | .salinity => ⟨.salinity, 0, 50, .mean, .diffusion (1 / 1000), 35⟩
  | .sonarReturn => ⟨.sonarReturn, 0, 1, .max, .decay (1 / 2), 0⟩

/-- FieldConfig::clamp. -/
def clampV (cfg : FieldConfig) (value : ℚ) : ℚ :=
  rclamp value cfg.rangeMin cfg.rangeMax

end FieldConfig

/-- The Universe (universe.rs); the optional ChaCha8 RNG is untouched by
step / propagation and is omitted, keeping only the stored seed. -/
structure Universe where
  octree : Octree
  fieldConfigs : Field → FieldConfig
  tick : ℕ
  time : ℚ
  seed : Option ℕ

namespace Universe

/-- Universe::field_config. -/
def fieldConfig (u : Universe) (f : Field) : FieldConfig := u.fieldConfigs f

/-- Universe::set_point - delegates to the octree. -/
def setPointU (u : Universe) (position : Vec3) (values : FieldValues) : Universe :=
  { u with octree := u.octree.setPoint position values }

end Universe

/-- propagation.rs apply_decay; fexp is the f32 exp model. -/
def applyDecay (fexp : ℚ → ℚ) (oldValue default rate dt : ℚ) : ℚ :=
  default + (oldValue - default) * fexp (-rate * dt)

/-- propagation.rs apply_diffusion. -/
def applyDiffusion (oldValue : ℚ) (neighborValues : List ℚ) (rate dt : ℚ) : ℚ :=
  let n : ℚ := neighborValues.length
  let neighborSum := neighborValues.sum
  oldValue + rate * dt * (neighborSum - n * oldValue)

/-- One mapped element of get_xy_neighbor_values: the neighbour's value at
the field, or the configured default when find_neighbor returns None. -/
def neighborOr (u : Universe) (pos : Vec3) (f : Field) (dir : Direction) : ℚ :=
  match u.octree.findNeighbor pos dir with
  | some values => values.get f
  | Option.none => (u.fieldConfig f).defaultValue

/-- propagation.rs get_xy_neighbor_values. -/
def getXYNeighborValues (u : Universe) (pos : Vec3) (f : Field) : List ℚ :=
  Direction.xyDirections.map (neighborOr u pos f)

/-- The un-clamped new value of one field in propagate_all phase 2, read
from the frozen pre-step universe. -/
def propagateField (fexp : ℚ → ℚ) (u : Universe) (dt : ℚ) (pos : Vec3)
    (oldValues : FieldValues) (f : Field) : ℚ :=
  let config := u.fieldConfig f
  let oldVal := oldValues.get f
  match config.propagation with
  | .none => oldVal
  | .diffusion rate => applyDiffusion oldVal (getXYNeighborValues u pos f) rate dt
  | .decay rate => applyDecay fexp oldVal config.defaultValue rate dt
  | .diffusionDecay diffusionRate decayRate =>
      let diffused :=
        applyDiffusion oldVal (getXYNeighborValues u pos f) diffusionRate dt
      applyDecay fexp diffused config.defaultValue decayRate dt

/-- The per-leaf update of propagate_all phase 2: each field's new value is
computed from the frozen pre-step universe and clamped into the field's
range, written over a copy of the old values. -/
def computeNewValues (fexp : ℚ → ℚ) (u : Universe) (dt : ℚ) (pos : Vec3)
    (oldValues : FieldValues) : FieldValues :=
  Field.all.foldl (fun newValues f =>
    newValues.set f
      ((u.fieldConfig f).clampV (propagateField fexp u dt pos oldValues f))) oldValues

/-- propagation.rs propagate_all: collect leaves, compute all updates from
the frozen snapshot, then write them back with set_point. -/
def propagateAll (fexp : ℚ → ℚ) (u : Universe) (dt : ℚ) : Universe :=
  let leaves := u.octree.collectLeaves
  if leaves.isEmpty then u
  else
    let updates := leaves.map (fun pv => (pv.1, computeNewValues fexp u dt pv.1 pv.2))
    updates.foldl (fun u2 pv => u2.setPointU pv.1 pv.2) u

namespace Universe

/-- Universe::step. -/
def step (fexp : ℚ → ℚ) (u : Universe) (dt : ℚ) : Universe :=
  let u2 := propagateAll fexp u dt
  { u2 with tick := u2.tick + 1, time := u2.time + dt }

/-- k successive calls of Universe::step(dt). -/
def stepN (fexp : ℚ → ℚ) (dt : ℚ) : ℕ → Universe → Universe
  | 0, u => u
  | k + 1, u => stepN fexp dt k (step fexp u dt)

end Universe

/-- A 100-unit cubic world centred at the origin (Bounds::new(100,100,100)
with the halving already carried out). -/
def bounds100 : Bounds3 := ⟨⟨-50, -50, -50⟩, ⟨50, 50, 50⟩⟩

/-- A small octree over the 100-unit world, max depth 3. -/
def oct100 : Octree := Octree.new ⟨bounds100, 1, 3, 1, 1⟩

/-- A point outside the 100-unit world. -/
def pOut : Vec3 := ⟨60, 0, 0⟩

/-- C4 amended direction: out-of-bounds point queries return
PointResult::default(), whose derived Default has interpolated = false
(and zero values, depth 0). -/
theorem queryPoint_outside_default (oct : Octree) (p : Vec3)
    (h : oct.config.bounds.contains p = false) :
    oct.queryPoint p = PointResult.default := by
  simp [Octree.queryPoint, h]

/-- C4: contrary to the spec, a query outside the root bounds reports
interpolated = false, not true: PointResult::default() derives Default,
and bool::default() is false. Concrete run on a small octree and an
outside point. -/
theorem queryPoint_outside_interpolated_counterexample :
    oct100.queryPoint pOut = { values := FieldValues.new, depth := 0, interpolated := false } ∧
    ((oct100.queryPoint pOut).interpolated = true → False) := by
  constructor
  · decide
  · decide

/-- Witness: the amended C4 theorem applied to the concrete octree and
outside point. -/
theorem queryPoint_outside_default_witness :
    oct100.config.bounds.contains pOut = false ∧
    oct100.queryPoint pOut = PointResult.default :=
  ⟨by decide, queryPoint_outside_default oct100 pOut (by decide)⟩

theorem applyStampRec_no_intersect (fsqrt : ℚ → ℚ) (stamp : Stamp)
    (config : OctreeConfig) (n : ONode) (nc lc : ℕ)
    (h : stamp.shape.intersects n.boundsOf = false) :
    Octree.applyStampRec fsqrt stamp config n nc lc = (n, nc, lc) := by
  cases n with
  | empty b d =>
      simp only [ONode.boundsOf] at h
      rw [Octree.applyStampRec]
      simp [h]
  | leaf b d v =>
      simp only [ONode.boundsOf] at h
      rw [Octree.applyStampRec]
      simp [h]
  | internal b d s c0 c1 c2 c3 c4 c5 c6 c7 =>
      simp only [ONode.boundsOf] at h
      rw [Octree.applyStampRec]
      simp [h]

/-- A stamp whose sphere lies far outside the 100-unit world. -/
def stampFar : Stamp := ⟨.sphere ⟨200, 0, 0⟩ 1, [], false⟩

/-- C6: writes outside the bounds are no-ops - set_point returns before
touching anything when the position is out of bounds, and apply_stamp
returns at the top of the recursion when the stamp's shape does not
intersect the root node's bounds, leaving the whole octree value
(tree, config and both counts) unchanged. -/
theorem write_outside_bounds_noop :
    (∀ (oct : Octree) (p : Vec3) (v : FieldValues),
        oct.config.bounds.contains p = false → oct.setPoint p v = oct) ∧
    (∀ (fsqrt : ℚ → ℚ) (oct : Octree) (stamp : Stamp),
        stamp.shape.intersects oct.root.boundsOf = false →
        Octree.applyStamp fsqrt oct stamp = oct) := by
  constructor
  · intro oct p v h
    simp [Octree.setPoint, h]
  · intro fsqrt oct stamp h
    obtain ⟨root, config, nc, lc⟩ := oct
    simp only [Octree.applyStamp, applyStampRec_no_intersect fsqrt stamp config root nc lc h]

/-- Witness: both no-op halves of C6 on the concrete octree, with an
outside point and a non-intersecting stamp. -/
theorem write_outside_bounds_noop_witness :
    (oct100.config.bounds.contains pOut = false ∧
      oct100.setPoint pOut FieldValues.new = oct100) ∧
    (stampFar.shape.intersects oct100.root.boundsOf = false ∧
      Octree.applyStamp (fun q => q) oct100 stampFar = oct100) :=
  ⟨⟨by decide, write_outside_bounds_noop.1 oct100 pOut FieldValues.new (by decide)⟩,
    ⟨by norm_num [stampFar, oct100, bounds100, Octree.new, StampShape.intersects,
        Bounds3.intersectsSphere, ONode.boundsOf, Vec3.distanceSquared, rclamp],
      write_outside_bounds_noop.2 (fun q => q) oct100 stampFar
        (by norm_num [stampFar, oct100, bounds100, Octree.new, StampShape.intersects,
          Bounds3.intersectsSphere, ONode.boundsOf, Vec3.distanceSquared, rclamp])⟩⟩

theorem childAt_updateStats (n : ONode) (i : ℕ) :
    (ONode.updateStats n).childAt i = n.childAt i := by
  cases n <;> rfl

theorem childAt_withChild_self (b : Bounds3) (d : ℕ) (s : FieldStats)
    (c0 c1 c2 c3 c4 c5 c6 c7 : Option ONode) (i : ℕ) (c : Option ONode)
    (h : i < 8) :
    (ONode.withChild (.internal b d s c0 c1 c2 c3 c4 c5 c6 c7) i c).childAt i = c := by
  rcases i with _ | _ | _ | _ | _ | _ | _ | _ | i
  · rfl
  · rfl
  · rfl
  · rfl
  · rfl
  · rfl
  · rfl
  · rfl
  · omega

theorem queryPointRec_internal_child (b : Bounds3) (d : ℕ) (s : FieldStats)
    (c0 c1 c2 c3 c4 c5 c6 c7 : Option ONode) (p : Vec3) (child : ONode)
    (h : (ONode.internal b d s c0 c1 c2 c3 c4 c5 c6 c7).childAt (b.octantIndex p) =
      some child) :
    Octree.queryPointRec (.internal b d s c0 c1 c2 c3 c4 c5 c6 c7) p =
      Octree.queryPointRec child p := by
  rw [Octree.queryPointRec]
  split
  · next child2 h2 =>
      rw [h] at h2
      cases h2
      rfl
  · next h2 =>
      rw [h] at h2
      exact absurd h2 (by simp)

theorem query_set_child (b : Bounds3) (d : ℕ) (s : FieldStats)
    (c0 c1 c2 c3 c4 c5 c6 c7 : Option ONode) (p : Vec3) (r : ONode) :
    Octree.queryPointRec
      (((ONode.internal b d s c0 c1 c2 c3 c4 c5 c6 c7).withChild (b.octantIndex p)
        (some r)).updateStats) p = Octree.queryPointRec r p := by
  have hi := Bounds3.octantIndex_lt b p
  obtain ⟨k, hk, hklt⟩ : ∃ k, b.octantIndex p = k ∧ k < 8 := ⟨_, rfl, hi⟩
  rw [hk]
  interval_cases k <;>
    simp only [ONode.withChild, ONode.updateStats] <;>
    exact queryPointRec_internal_child _ _ _ _ _ _ _ _ _ _ _ _ _ (by rw [hk]; rfl)

theorem setPointRec_query (p : Vec3) (v : FieldValues) (maxD : ℕ) :
    ∀ (n : ONode) (nc lc : ℕ),
      (Octree.queryPointRec (Octree.setPointRec p v maxD n nc lc).1 p).values = v := by
  intro n nc lc
  induction n, nc, lc using Octree.setPointRec.induct p v maxD with
  | case1 b d nc lc h =>
      rw [Octree.setPointRec]
      simp [h, Octree.queryPointRec]
  | case2 b d nc lc h octant child ih =>
      rw [Octree.setPointRec]
      simp only [if_neg h, ONode.mkSplit]
      rw [query_set_child]
      exact ih
  | case3 b d w nc lc h =>
      rw [Octree.setPointRec]
      simp [h, Octree.queryPointRec]
  | case4 b d w nc lc h octant child ih =>
      rw [Octree.setPointRec]
      simp only [if_neg h, ONode.mkSplit]
      rw [query_set_child]
      exact ih
  | case5 b d s c0 c1 c2 c3 c4 c5 c6 c7 nc lc node octant child hchild ih =>
      rw [Octree.setPointRec]
      split
      · next c hsome =>
          dsimp only
          rw [query_set_child]
          have he : some c = some child := hsome.symm.trans hchild
          injection he with he2
          rw [he2]
          exact ih
      · next hnone => exact Option.noConfusion (hnone.symm.trans hchild)
  | case6 b d s c0 c1 c2 c3 c4 c5 c6 c7 nc lc node octant hchild child ih =>
      rw [Octree.setPointRec]
      split
      · next c hsome => exact Option.noConfusion (hsome.symm.trans hchild)
      · next hnone =>
          dsimp only
          rw [query_set_child]
          exact ih

/-- C5: for a position inside the root bounds, set_point followed by
query_point returns exactly the written FieldValues at every field; the
write is raw (no clamping) and the query descends the same octant path the
write created. -/
theorem setPoint_queryPoint_roundtrip (oct : Octree) (p : Vec3) (v : FieldValues)
    (h : oct.config.bounds.contains p = true) :
    ∀ f : Field, ((oct.setPoint p v).queryPoint p).values.get f = v.get f := by
  intro f
  have hv : ((oct.setPoint p v).queryPoint p).values = v := by
    simp only [Octree.setPoint, h, if_pos]
    simp only [Octree.queryPoint, h, if_pos]
    exact setPointRec_query p v oct.config.maxDepth oct.root oct.nodeCount oct.leafCount
  rw [hv]

/-- A point inside the 100-unit world. -/
def pIn : Vec3 := ⟨1, 2, 3⟩

/-- A concrete FieldValues with a 500-degree temperature. -/
def vHot : FieldValues := ⟨0, 0, 0, 500, 0, 0, 0, 0, 0, 0, 0, 0⟩

/-- Witness: the C5 roundtrip on the concrete octree, read back at the
temperature field. -/
theorem setPoint_queryPoint_roundtrip_witness :
    oct100.config.bounds.contains pIn = true ∧
    ((oct100.setPoint pIn vHot).queryPoint pIn).values.get .temperature =
      vHot.get .temperature :=
  ⟨by decide, setPoint_queryPoint_roundtrip oct100 pIn vHot (by decide) .temperature⟩

/-- The origin. -/
def vzero : Vec3 := ⟨0, 0, 0⟩

/-- C9: a capsule stamp with p0 = p1 does not collapse to a sphere at the
endpoint; the axis projection t = 0/0 is NaN, which propagates so that
contains is false everywhere and the falloff intensity is NaN - here shown
at the endpoint itself, where the spec's collapsed sphere of radius 1
would give contains = true and intensity 1 (second conjunct, for any f32
sqrt model with sqrt 0 = 0). -/
theorem capsule_zero_axis_nan :
    (∀ fsqrt : ℚ → ℚ,
        StampShape.containsPt fsqrt (.capsule vzero vzero 1) vzero = false ∧
        StampShape.intensityAt fsqrt (.capsule vzero vzero 1) vzero true = Option.none) ∧
    (∀ fsqrt : ℚ → ℚ, fsqrt 0 = 0 →
        StampShape.containsPt fsqrt (.sphere vzero 1) vzero = true ∧
        StampShape.intensityAt fsqrt (.sphere vzero 1) vzero true = some 1) := by
  constructor
  · intro fsqrt
    constructor
    · norm_num [StampShape.containsPt, StampShape.capsuleDist, vzero, Vec3.sub, Vec3.dot,
        NF.divF, NF.clamp01F, NF.addF, NF.mulF, NF.subF, NF.sqrtF, NF.leF]
    · norm_num [StampShape.intensityAt, StampShape.capsuleDist, vzero, Vec3.sub, Vec3.dot,
        NF.divF, NF.clamp01F, NF.addF, NF.mulF, NF.subF, NF.sqrtF, NF.geF, NF.leF]
  · intro fsqrt h0
    constructor
    · norm_num [StampShape.containsPt, vzero, Vec3.distanceSquared, NF.sqrtF, NF.leF, h0]
    · norm_num [StampShape.intensityAt, vzero, Vec3.distanceSquared, NF.sqrtF, NF.geF,
        NF.subF, NF.divF, h0]

/-- A fully populated uniform tree: every leaf carries the value v, and
every internal node has all eight children present. This is the
tree shape produced by set_point / split on in-bounds writes of a single
value, and the natural reading of the spec's "uniform field". -/
inductive UniformFull (v : FieldValues) : ONode → Prop where
  | leaf (b : Bounds3) (d : ℕ) : UniformFull v (.leaf b d v)
  | internal (b : Bounds3) (d : ℕ) (s : FieldStats) {t0 t1 t2 t3 t4 t5 t6 t7 : ONode}
      (h0 : UniformFull v t0) (h1 : UniformFull v t1) (h2 : UniformFull v t2)
      (h3 : UniformFull v t3) (h4 : UniformFull v t4) (h5 : UniformFull v t5)
      (h6 : UniformFull v t6) (h7 : UniformFull v t7) :
      UniformFull v (.internal b d s (some t0) (some t1) (some t2) (some t3)
        (some t4) (some t5) (some t6) (some t7))

theorem set_get_self (w : FieldValues) (f : Field) : w.set f (w.get f) = w := by
  cases f <;> rfl

theorem uniform_query (v : FieldValues) :
    ∀ n : ONode, UniformFull v n → ∀ p : Vec3,
      (Octree.queryPointRec n p).values = v := by
  intro n hu
  induction hu with
  | leaf b d =>
      intro p
      rw [Octree.queryPointRec]
  | internal b d s h0 h1 h2 h3 h4 h5 h6 h7 ih0 ih1 ih2 ih3 ih4 ih5 ih6 ih7 =>
      intro p
      have hi := Bounds3.octantIndex_lt b p
      obtain ⟨k, hk, hklt⟩ : ∃ k, b.octantIndex p = k ∧ k < 8 := ⟨_, rfl, hi⟩
      interval_cases k
      · rw [queryPointRec_internal_child _ _ _ _ _ _ _ _ _ _ _ _ _ (by rw [hk]; rfl)]
        exact ih0 p
      · rw [queryPointRec_internal_child _ _ _ _ _ _ _ _ _ _ _ _ _ (by rw [hk]; rfl)]
        exact ih1 p
      · rw [queryPointRec_internal_child _ _ _ _ _ _ _ _ _ _ _ _ _ (by rw [hk]; rfl)]
        exact ih2 p
      · rw [queryPointRec_internal_child _ _ _ _ _ _ _ _ _ _ _ _ _ (by rw [hk]; rfl)]
        exact ih3 p
      · rw [queryPointRec_internal_child _ _ _ _ _ _ _ _ _ _ _ _ _ (by rw [hk]; rfl)]
        exact ih4 p
      · rw [queryPointRec_internal_child _ _ _ _ _ _ _ _ _ _ _ _ _ (by rw [hk]; rfl)]
        exact ih5 p
      · rw [queryPointRec_internal_child _ _ _ _ _ _ _ _ _ _ _ _ _ (by rw [hk]; rfl)]
        exact ih6 p
      · rw [queryPointRec_internal_child _ _ _ _ _ _ _ _ _ _ _ _ _ (by rw [hk]; rfl)]
        exact ih7 p

theorem uniform_collect (v : FieldValues) :
    ∀ n : ONode, UniformFull v n →
      ∀ pv ∈ ONode.collectLeavesRec n, pv.2 = v := by
  intro n hu
  induction hu with
  | leaf b d =>
      intro pv hpv
      simp only [ONode.collectLeavesRec, List.mem_singleton] at hpv
      rw [hpv]
  | internal b d s h0 h1 h2 h3 h4 h5 h6 h7 ih0 ih1 ih2 ih3 ih4 ih5 ih6 ih7 =>
      intro pv hpv
      simp only [ONode.collectLeavesRec, ONode.collectLeavesO, List.mem_append] at hpv
      rcases hpv with h | h | h | h | h | h | h | h
      · exact ih0 pv h
      · exact ih1 pv h
      · exact ih2 pv h
      · exact ih3 pv h
      · exact ih4 pv h
      · exact ih5 pv h
      · exact ih6 pv h
      · exact ih7 pv h

theorem uniform_withChild_updateStats (v : FieldValues) (b : Bounds3) (d : ℕ)
    (s : FieldStats) {t0 t1 t2 t3 t4 t5 t6 t7 : ONode} (k : ℕ) (r : ONode)
    (h0 : UniformFull v t0) (h1 : UniformFull v t1) (h2 : UniformFull v t2)
    (h3 : UniformFull v t3) (h4 : UniformFull v t4) (h5 : UniformFull v t5)
    (h6 : UniformFull v t6) (h7 : UniformFull v t7) (hr : UniformFull v r) :
    UniformFull v
      (((ONode.internal b d s (some t0) (some t1) (some t2) (some t3) (some t4)
        (some t5) (some t6) (some t7)).withChild k (some r)).updateStats) := by
  rcases k with _ | _ | _ | _ | _ | _ | _ | _ | k
  · exact .internal b d _ hr h1 h2 h3 h4 h5 h6 h7
  · exact .internal b d _ h0 hr h2 h3 h4 h5 h6 h7
  · exact .internal b d _ h0 h1 hr h3 h4 h5 h6 h7
  · exact .internal b d _ h0 h1 h2 hr h4 h5 h6 h7
  · exact .internal b d _ h0 h1 h2 h3 hr h5 h6 h7
  · exact .internal b d _ h0 h1 h2 h3 h4 hr h6 h7
  · exact .internal b d _ h0 h1 h2 h3 h4 h5 hr h7
  · exact .internal b d _ h0 h1 h2 h3 h4 h5 h6 hr
  · exact .internal b d _ h0 h1 h2 h3 h4 h5 h6 h7

theorem uniform_setPointRec (p : Vec3) (v : FieldValues) (maxD : ℕ) :
    ∀ (n : ONode) (nc lc : ℕ), UniformFull v n →
      UniformFull v (Octree.setPointRec p v maxD n nc lc).1 := by
  intro n nc lc
  induction n, nc, lc using Octree.setPointRec.induct p v maxD with
  | case1 b d nc lc h =>
      intro hu
      cases hu
  | case2 b d nc lc h octant child ih =>
      intro hu
      cases hu
  | case3 b d w nc lc h =>
      intro hu
      rw [Octree.setPointRec]
      simp only [if_pos h]
      exact .leaf b d
  | case4 b d w nc lc h octant child ih =>
      intro hu
      cases hu with
      | leaf =>
          rw [Octree.setPointRec]
          simp only [if_neg h, ONode.mkSplit]
          exact uniform_withChild_updateStats v b d _ _ _
            (.leaf _ _) (.leaf _ _) (.leaf _ _) (.leaf _ _)
            (.leaf _ _) (.leaf _ _) (.leaf _ _) (.leaf _ _)
            (ih (.leaf _ _))
  | case5 b d s c0 c1 c2 c3 c4 c5 c6 c7 nc lc node octant child hchild ih =>
      intro hu
      cases hu
      rename_i t0 t1 t2 t3 t4 t5 t6 t7 h0 h1 h2 h3 h4 h5 h6 h7
      have hchild2 : (ONode.internal b d s (some t0) (some t1) (some t2) (some t3)
          (some t4) (some t5) (some t6) (some t7)).childAt (b.octantIndex p) =
          some child := hchild
      have hcu : UniformFull v child := by
        have hi := Bounds3.octantIndex_lt b p
        obtain ⟨k, hk, hklt⟩ : ∃ k, b.octantIndex p = k ∧ k < 8 := ⟨_, rfl, hi⟩
        rw [hk] at hchild2
        interval_cases k <;> simp only [ONode.childAt] at hchild2
        · injection hchild2 with e
          rw [← e]
          exact h0
        · injection hchild2 with e
          rw [← e]
          exact h1
        · injection hchild2 with e
          rw [← e]
          exact h2
        · injection hchild2 with e
          rw [← e]
          exact h3
        · injection hchild2 with e
          rw [← e]
          exact h4
        · injection hchild2 with e
          rw [← e]
          exact h5
        · injection hchild2 with e
          rw [← e]
          exact h6
        · injection hchild2 with e
          rw [← e]
          exact h7
      rw [Octree.setPointRec]
      split
      · next c hsome =>
          dsimp only
          have he : some child = some c := hchild.symm.trans hsome
          injection he with he2
          rw [← he2]
          exact uniform_withChild_updateStats v b d _ _ _
            h0 h1 h2 h3 h4 h5 h6 h7 (ih hcu)
      · next hnone => exact Option.noConfusion (hnone.symm.trans hchild)
  | case6 b d s c0 c1 c2 c3 c4 c5 c6 c7 nc lc node octant hchild child ih =>
      intro hu
      cases hu
      rename_i t0 t1 t2 t3 t4 t5 t6 t7 h0 h1 h2 h3 h4 h5 h6 h7
      exfalso
      have hchild2 : (ONode.internal b d s (some t0) (some t1) (some t2) (some t3)
          (some t4) (some t5) (some t6) (some t7)).childAt (b.octantIndex p) =
          none := hchild
      have hi := Bounds3.octantIndex_lt b p
      obtain ⟨k, hk, hklt⟩ : ∃ k, b.octantIndex p = k ∧ k < 8 := ⟨_, rfl, hi⟩
      rw [hk] at hchild2
      interval_cases k <;> simp only [ONode.childAt] at hchild2 <;>
        exact Option.noConfusion hchild2

theorem uniform_setPoint (oct : Octree) (p : Vec3) (v : FieldValues)
    (hu : UniformFull v oct.root) :
    UniformFull v (oct.setPoint p v).root ∧
      (oct.setPoint p v).config = oct.config := by
  rw [Octree.setPoint]
  split
  · exact ⟨uniform_setPointRec p v oct.config.maxDepth oct.root oct.nodeCount
      oct.leafCount hu, rfl⟩
  · exact ⟨hu, rfl⟩

theorem neighborOr_uniform (u : Universe) (v : FieldValues)
    (hu : UniformFull v u.octree.root)
    (hdef : ∀ f, v.get f = (u.fieldConfig f).defaultValue)
    (pos : Vec3) (f : Field) (dir : Direction) :
    neighborOr u pos f dir = v.get f := by
  rw [neighborOr]
  rcases hfn : u.octree.findNeighbor pos dir with _ | vals
  · dsimp only
    exact (hdef f).symm
  · dsimp only
    rw [Octree.findNeighbor] at hfn
    dsimp only at hfn
    by_cases hcs : u.octree.cellSizeAt pos = 0
    · rw [if_pos hcs] at hfn
      exact Option.noConfusion hfn
    · rw [if_neg hcs] at hfn
      by_cases hcont : u.octree.config.bounds.contains
          (pos.add (dir.offset.scale (u.octree.cellSizeAt pos))) = true
      · rw [if_pos hcont] at hfn
        injection hfn with he
        rw [← he, Octree.queryPoint, if_pos hcont,
          uniform_query v u.octree.root hu]
      · rw [if_neg hcont] at hfn
        exact Option.noConfusion hfn

theorem getXY_uniform (u : Universe) (v : FieldValues)
    (hu : UniformFull v u.octree.root)
    (hdef : ∀ f, v.get f = (u.fieldConfig f).defaultValue)
    (pos : Vec3) (f : Field) :
    getXYNeighborValues u pos f = [v.get f, v.get f, v.get f, v.get f] := by
  rw [getXYNeighborValues, Direction.xyDirections]
  simp only [List.map_cons, List.map_nil]
  rw [neighborOr_uniform u v hu hdef pos f .posX,
    neighborOr_uniform u v hu hdef pos f .negX,
    neighborOr_uniform u v hu hdef pos f .posY,
    neighborOr_uniform u v hu hdef pos f .negY]

theorem applyDiffusion_uniform (x rate dtv : ℚ) :
    applyDiffusion x [x, x, x, x] rate dtv = x := by
  simp only [applyDiffusion, List.sum_cons, List.sum_nil, List.length_cons,
    List.length_nil]
  push_cast
  ring

theorem propagateField_uniform (fexp : ℚ → ℚ) (u : Universe) (dt : ℚ)
    (v : FieldValues) (hu : UniformFull v u.octree.root)
    (hdef : ∀ f, v.get f = (u.fieldConfig f).defaultValue)
    (pos : Vec3) (f : Field) :
    propagateField fexp u dt pos v f = v.get f := by
  rw [propagateField]
  dsimp only
  rcases hprop : (u.fieldConfig f).propagation with _ | rate | rate | ⟨dr, kr⟩
  · rfl
  · dsimp only
    rw [getXY_uniform u v hu hdef pos f, applyDiffusion_uniform]
  · dsimp only
    rw [applyDecay, ← hdef f]
    ring
  · dsimp only
    rw [getXY_uniform u v hu hdef pos f, applyDiffusion_uniform, applyDecay, ← hdef f]
    ring

theorem computeNewValues_uniform (fexp : ℚ → ℚ) (u : Universe) (dt : ℚ)
    (v : FieldValues) (hu : UniformFull v u.octree.root)
    (hdef : ∀ f, v.get f = (u.fieldConfig f).defaultValue)
    (hrange : ∀ f, (u.fieldConfig f).clampV (v.get f) = v.get f)
    (pos : Vec3) :
    computeNewValues fexp u dt pos v = v := by
  rw [computeNewValues]
  have hstep : ∀ (acc : FieldValues) (f : Field), acc = v →
      acc.set f ((u.fieldConfig f).clampV (propagateField fexp u dt pos v f)) = v := by
    intro acc f hacc
    rw [hacc, propagateField_uniform fexp u dt v hu hdef pos f, hrange f, set_get_self]
  have hfold : ∀ (l : List Field) (acc : FieldValues), acc = v →
      (l.foldl (fun newValues f =>
        newValues.set f
          ((u.fieldConfig f).clampV (propagateField fexp u dt pos v f))) acc) = v := by
    intro l
    induction l with
    | nil => intro acc hacc; exact hacc
    | cons f l ihl =>
        intro acc hacc
        rw [List.foldl_cons]
        exact ihl _ (hstep acc f hacc)
  exact hfold Field.all v rfl

theorem foldl_setPoint_uniform (v : FieldValues) :
    ∀ (l : List (Vec3 × FieldValues)) (w : Universe),
      UniformFull v w.octree.root → (∀ pv ∈ l, pv.2 = v) →
      UniformFull v
        ((l.foldl (fun u2 pv => u2.setPointU pv.1 pv.2) w).octree.root) ∧
      (l.foldl (fun u2 pv => u2.setPointU pv.1 pv.2) w).fieldConfigs = w.fieldConfigs := by
  intro l
  induction l with
  | nil => intro w hu _; exact ⟨hu, rfl⟩
  | cons pv l ihl =>
      intro w hu hall
      rw [List.foldl_cons]
      have hpv : pv.2 = v := hall pv (List.mem_cons_self pv l)
      have hset := uniform_setPoint w.octree pv.1 v hu
      have hstep : UniformFull v (w.setPointU pv.1 pv.2).octree.root := by
        rw [Universe.setPointU]
        rw [hpv]
        exact hset.1
      have hcfg : (w.setPointU pv.1 pv.2).fieldConfigs = w.fieldConfigs := rfl
      have := ihl (w.setPointU pv.1 pv.2) hstep
        (fun q hq => hall q (List.mem_cons_of_mem pv hq))
      exact ⟨this.1, this.2.trans hcfg⟩

theorem propagateAll_uniform (fexp : ℚ → ℚ) (u : Universe) (dt : ℚ)
    (v : FieldValues) (hu : UniformFull v u.octree.root)
    (hdef : ∀ f, v.get f = (u.fieldConfig f).defaultValue)
    (hrange : ∀ f, (u.fieldConfig f).clampV (v.get f) = v.get f) :
    UniformFull v (propagateAll fexp u dt).octree.root ∧
      (propagateAll fexp u dt).fieldConfigs = u.fieldConfigs := by
  rw [propagateAll]
  split
  · exact ⟨hu, rfl⟩
  · refine foldl_setPoint_uniform v _ u hu ?_
    intro pv hpv
    simp only [List.mem_map] at hpv
    obtain ⟨q, hq, hqe⟩ := hpv
    rw [← hqe]
    simp only
    have hq2 : q.2 = v := uniform_collect v u.octree.root hu q hq
    rw [hq2]
    exact computeNewValues_uniform fexp u dt v hu hdef hrange q.1

theorem step_uniform (fexp : ℚ → ℚ) (u : Universe) (dt : ℚ)
    (v : FieldValues) (hu : UniformFull v u.octree.root)
    (hdef : ∀ f, v.get f = (u.fieldConfig f).defaultValue)
    (hrange : ∀ f, (u.fieldConfig f).clampV (v.get f) = v.get f) :
    UniformFull v (Universe.step fexp u dt).octree.root ∧
      (Universe.step fexp u dt).fieldConfigs = u.fieldConfigs := by
  rw [Universe.step]
  exact propagateAll_uniform fexp u dt v hu hdef hrange

theorem stepN_uniform (fexp : ℚ → ℚ) (dt : ℚ) (v : FieldValues) :
    ∀ (k : ℕ) (u : Universe), UniformFull v u.octree.root →
      (∀ f, v.get f = (u.fieldConfig f).defaultValue) →
      (∀ f, (u.fieldConfig f).clampV (v.get f) = v.get f) →
      UniformFull v (Universe.stepN fexp dt k u).octree.root ∧
        (Universe.stepN fexp dt k u).fieldConfigs = u.fieldConfigs := by
  intro k
  induction k with
  | zero => intro u hu _ _; exact ⟨hu, rfl⟩
  | succ k ihk =>
      intro u hu hdef hrange
      rw [Universe.stepN]
      have hs := step_uniform fexp u dt v hu hdef hrange
      have hdef2 : ∀ f, v.get f = ((Universe.step fexp u dt).fieldConfig f).defaultValue := by
        intro f
        rw [Universe.fieldConfig, hs.2]
        exact hdef f
      have hrange2 : ∀ f,
          ((Universe.step fexp u dt).fieldConfig f).clampV (v.get f) = v.get f := by
        intro f
        rw [Universe.fieldConfig, hs.2]
        exact hrange f
      have := ihk (Universe.step fexp u dt) hs.1 hdef2 hrange2
      refine ⟨this.1, this.2.trans ?_⟩
      exact hs.2

/-- C3 amended direction: if the octree is a fully populated uniform tree
whose common value v equals each field's configured default and each such
default is a fixed point of the field's clamp (in range), then any number
of Universe::step calls leaves every leaf equal to v. The original claim
needs the extra hypotheses: without v = default the decay term moves the
value, and without in-range defaults the final clamp moves it (see the
counterexample). fexp models f32 exp. -/
theorem uniform_default_leaves_invariant (fexp : ℚ → ℚ) (dt : ℚ) (k : ℕ)
    (u : Universe) (v : FieldValues)
    (hu : UniformFull v u.octree.root)
    (hdef : ∀ f, v.get f = (u.fieldConfig f).defaultValue)
    (hrange : ∀ f, (u.fieldConfig f).clampV (v.get f) = v.get f) :
    UniformFull v (Universe.stepN fexp dt k u).octree.root ∧
      ∀ pv ∈ (Universe.stepN fexp dt k u).octree.collectLeaves, pv.2 = v := by
  have h := stepN_uniform fexp dt v k u hu hdef hrange
  exact ⟨h.1, fun pv hpv => uniform_collect v _ h.1 pv hpv⟩

/-- The per-field default values of FieldConfig::default_for as one
FieldValues. -/
def vDefaults : FieldValues := ⟨0, 0, 1, 293, 0, 0, 0, 0, 0, 100, 35, 0⟩

/-- A universe over the 100-unit world whose single root leaf carries the
per-field defaults; max depth 0. -/
def uDefaults : Universe :=
  ⟨⟨.leaf bounds100 0 vDefaults, ⟨bounds100, 1, 0, 1, 1⟩, 1, 1⟩,
    FieldConfig.defaultFor, 0, 0, Option.none⟩

/-- Witness: the amended C3 theorem after one step of the all-defaults
uniform universe. -/
theorem uniform_default_leaves_invariant_witness :
    (UniformFull vDefaults uDefaults.octree.root ∧
      (∀ f, vDefaults.get f = (uDefaults.fieldConfig f).defaultValue) ∧
      (∀ f, (uDefaults.fieldConfig f).clampV (vDefaults.get f) = vDefaults.get f)) ∧
    UniformFull vDefaults (Universe.stepN (fun _ => 1) 1 1 uDefaults).octree.root :=
  ⟨⟨UniformFull.leaf bounds100 0,
      fun f => by cases f <;> rfl,
      fun f => by cases f <;> decide⟩,
    (uniform_default_leaves_invariant (fun _ => 1) 1 1 uDefaults vDefaults
      (UniformFull.leaf bounds100 0)
      (fun f => by cases f <;> rfl)
      (fun f => by cases f <;> decide)).1⟩

/-- A uniform single-leaf universe whose occupancy (5) lies outside the
configured [0, 1] range; occupancy has Propagation::None. -/
def vOcc5 : FieldValues := ⟨5, 0, 0, 0, 0, 0, 0, 0, 0, 0, 0, 0⟩

/-- The counterexample universe: one root leaf with value vOcc5, default
field configs, max depth 0. -/
def uOcc5 : Universe :=
  ⟨⟨.leaf bounds100 0 vOcc5, ⟨bounds100, 1, 0, 1, 1⟩, 1, 1⟩,
    FieldConfig.defaultFor, 0, 0, Option.none⟩

/-- C3 counterexample: a uniform universe (single leaf, value v with
occupancy 5) for which one step changes a leaf: even though occupancy has
Propagation::None, the unconditional clamp into the configured [0, 1]
range rewrites it to 1, so not every leaf still equals v. -/
theorem uniform_claim_counterexample :
    ((Universe.step (fun _ => 0) uOcc5 1).octree.collectLeaves.all
      (fun pv => pv.2 = vOcc5)) = false := by
  have hcenter : bounds100.center = (⟨0, 0, 0⟩ : Vec3) := by
    norm_num [Bounds3.center, bounds100]
  have hleaves : uOcc5.octree.collectLeaves = [(Vec3.mk 0 0 0, vOcc5)] := by
    rw [Octree.collectLeaves]
    show ONode.collectLeavesRec (.leaf bounds100 0 vOcc5) = _
    rw [ONode.collectLeavesRec, hcenter]
  have hcontains : bounds100.contains ⟨0, 0, 0⟩ = true := by decide
  have hroot : (Universe.step (fun _ => 0) uOcc5 1).octree.root =
      .leaf bounds100 0 (computeNewValues (fun _ => 0) uOcc5 1 ⟨0, 0, 0⟩ vOcc5) := by
    rw [Universe.step]
    show (propagateAll (fun _ => 0) uOcc5 1).octree.root = _
    rw [propagateAll, hleaves]
    simp only [List.isEmpty_cons, List.map_cons, List.map_nil, List.foldl_cons,
      List.foldl_nil, Bool.false_eq_true, if_false]
    rw [Universe.setPointU]
    show (uOcc5.octree.setPoint _ _).root = _
    rw [Octree.setPoint]
    simp only [hcontains, if_true]
    show (Octree.setPointRec _ _ 0 (.leaf bounds100 0 vOcc5) _ _).1 = _
    rw [Octree.setPointRec]
    simp
  have hocc : (computeNewValues (fun _ => 0) uOcc5 1 ⟨0, 0, 0⟩ vOcc5).get .occupancy = 1 := by
    rw [computeNewValues, Field.all]
    simp only [List.foldl_cons, List.foldl_nil]
    simp only [FieldValues.set, FieldValues.get]
    show (FieldConfig.defaultFor .occupancy).clampV
      (propagateField (fun _ => 0) uOcc5 1 ⟨0, 0, 0⟩ vOcc5 .occupancy) = 1
    rw [propagateField]
    show (FieldConfig.defaultFor .occupancy).clampV (vOcc5.get .occupancy) = 1
    norm_num [FieldConfig.defaultFor, FieldConfig.clampV, rclamp, vOcc5, FieldValues.get]
  have hleaves2 : (Universe.step (fun _ => 0) uOcc5 1).octree.collectLeaves =
      [(bounds100.center, computeNewValues (fun _ => 0) uOcc5 1 ⟨0, 0, 0⟩ vOcc5)] := by
    rw [Octree.collectLeaves, hroot, ONode.collectLeavesRec]
  rw [hleaves2]
  simp only [List.all_cons, List.all_nil, Bool.and_true]
  apply decide_eq_false
  intro he
  have : (computeNewValues (fun _ => 0) uOcc5 1 ⟨0, 0, 0⟩ vOcc5).get .occupancy =
      vOcc5.get .occupancy := by rw [he]
  rw [hocc] at this
  norm_num [vOcc5, FieldValues.get] at this

/-- Witness: the C9 theorem at the identity-on-zero sqrt model. -/
theorem capsule_zero_axis_nan_witness :
    (StampShape.containsPt (fun _ => 0) (.capsule vzero vzero 1) vzero = false ∧
      StampShape.intensityAt (fun _ => 0) (.capsule vzero vzero 1) vzero true = Option.none) ∧
    ((fun _ => (0 : ℚ)) 0 = 0 ∧
      StampShape.containsPt (fun _ => 0) (.sphere vzero 1) vzero = true ∧
      StampShape.intensityAt (fun _ => 0) (.sphere vzero 1) vzero true = some 1) :=
  ⟨capsule_zero_axis_nan.1 (fun _ => 0),
    ⟨rfl, capsule_zero_axis_nan.2 (fun _ => 0) rfl⟩⟩

end Murk
